import Mathlib

/-!
Verification of the ad-block core filter engine (Rust crate under src/core).

Strings are modelled as lists of characters (`Str`); Rust byte indices become
character indices, which coincides with the source behaviour on the ASCII
inputs involved.  Each definition below is a direct translation of the
correspondingly named Rust function; definitions whose doc comment says
"spec side" instead follow the wording of the natural-language specification
and are compared with the translated code.
-/

set_option maxRecDepth 4000

/-- Character-list model of Rust `&str` / `String`. -/
abbrev Str := List Char

/-- Shorthand turning a Lean string literal into the `Str` model. -/
def S (s : String) : Str := s.toList

/-- Model of Rust `str::starts_with` on string arguments. -/
def startsWithB : Str → Str → Bool
  | [], _ => true
  | _ :: _, [] => false
  | a :: as, b :: bs => a == b && startsWithB as bs

/-- Model of Rust `str::ends_with` on string arguments. -/
def endsWithB (pat s : Str) : Bool := startsWithB pat.reverse s.reverse

/-- Model of Rust `str::find(&str)`: index of the first occurrence of `pat`. -/
def findSub (pat : Str) : Str → Option Nat
  | [] => if startsWithB pat [] then some 0 else none
  | s@(_ :: t) => if startsWithB pat s then some 0 else (findSub pat t).map (· + 1)

/-- Model of Rust `str::contains(&str)`. -/
def occursIn (pat s : Str) : Bool := (findSub pat s).isSome

/-- Model of Rust `str::find(char)`. -/
def findCharIdx (c : Char) : Str → Option Nat
  | [] => none
  | a :: t => if a == c then some 0 else (findCharIdx c t).map (· + 1)

/-- Model of Rust `str::rfind(char)`. -/
def rfindCharIdx (c : Char) (s : Str) : Option Nat :=
  (findCharIdx c s.reverse).map (fun i => s.length - 1 - i)

/-- Model of Rust `str::split(char)` (keeps empty pieces, never returns an
empty list). -/
def splitOnChar (c : Char) : Str → List Str
  | [] => [[]]
  | a :: t =>
    if a == c then [] :: splitOnChar c t
    else
      match splitOnChar c t with
      | [] => [[a]]
      | h :: r => (a :: h) :: r

/-- Model of Rust `str::trim` (both ends, whitespace). -/
def trimStr (s : Str) : Str :=
  ((s.dropWhile Char.isWhitespace).reverse.dropWhile Char.isWhitespace).reverse

/-- Model of Rust `str::trim_matches('*')`. -/
def trimStarBoth (s : Str) : Str :=
  ((s.dropWhile (· == '*')).reverse.dropWhile (· == '*')).reverse

/-- Model of Rust `str::trim_end_matches('*')`. -/
def trimStarEnd (s : Str) : Str :=
  (s.reverse.dropWhile (· == '*')).reverse

/-- Model of Rust `str::strip_suffix(char)`. -/
def stripSuffixChar (c : Char) (s : Str) : Option Str :=
  if s.getLast? == some c then some s.dropLast else none

/-- Model of Rust `str::strip_prefix(&str)`. -/
def stripPre (pre s : Str) : Option Str :=
  if startsWithB pre s then some (s.drop pre.length) else none

/-- Model of Rust `str::lines`: split on newline, drop a final empty piece
produced by a trailing newline, strip one trailing carriage return per line. -/
def rustLines (s : Str) : List Str :=
  if s.isEmpty then []
  else
    let ps := splitOnChar '\n' s
    let ps := if s.getLast? == some '\n' then ps.dropLast else ps
    ps.map (fun l => if l.getLast? == some '\r' then l.dropLast else l)

/-- Checked slice `s[i..]`: `none` models a Rust slice-out-of-bounds panic. -/
def sliceFrom (s : Str) (i : Nat) : Option Str :=
  if i ≤ s.length then some (s.drop i) else none

-- Basic lemmas about the string primitives.

theorem startsWithB_iff (p s : Str) : startsWithB p s = true ↔ ∃ r, s = p ++ r := by
  induction p generalizing s with
  | nil => simp [startsWithB]
  | cons a as ih =>
    cases s with
    | nil => simp [startsWithB]
    | cons b bs =>
      simp only [startsWithB, Bool.and_eq_true, beq_iff_eq, ih]
      constructor
      · rintro ⟨rfl, r, rfl⟩; exact ⟨r, rfl⟩
      · rintro ⟨r, h⟩
        cases h
        exact ⟨rfl, r, rfl⟩

theorem startsWithB_append (p r : Str) : startsWithB p (p ++ r) = true :=
  (startsWithB_iff p (p ++ r)).2 ⟨r, rfl⟩

theorem startsWithB_length {p s : Str} (h : startsWithB p s = true) :
    p.length ≤ s.length := by
  obtain ⟨r, rfl⟩ := (startsWithB_iff p s).1 h
  simp

theorem endsWithB_iff (p s : Str) : endsWithB p s = true ↔ ∃ r, s = r ++ p := by
  unfold endsWithB
  rw [startsWithB_iff]
  constructor
  · rintro ⟨r, h⟩
    refine ⟨r.reverse, ?_⟩
    have := congrArg List.reverse h
    simpa using this
  · rintro ⟨r, rfl⟩
    exact ⟨r.reverse, by simp⟩

theorem findSub_eq_some {p s : Str} {k : Nat} (h : findSub p s = some k) :
    startsWithB p (s.drop k) = true ∧ k + p.length ≤ s.length := by
  induction s generalizing k with
  | nil =>
    unfold findSub at h
    by_cases hs : startsWithB p [] = true
    · rw [if_pos hs] at h
      obtain rfl : (0 : Nat) = k := Option.some.inj h
      refine ⟨by simpa using hs, ?_⟩
      have := startsWithB_length hs
      simpa using this
    · rw [if_neg hs] at h
      exact absurd h (by simp)
  | cons a t ih =>
    unfold findSub at h
    by_cases hs : startsWithB p (a :: t) = true
    · rw [if_pos hs] at h
      obtain rfl : (0 : Nat) = k := Option.some.inj h
      refine ⟨by simpa using hs, ?_⟩
      have := startsWithB_length hs
      simpa using this
    · rw [if_neg hs] at h
      simp only [Option.map_eq_some'] at h
      obtain ⟨j, hj, rfl⟩ := h
      obtain ⟨h1, h2⟩ := ih hj
      constructor
      · simpa using h1
      · simp only [List.length_cons]
        omega

theorem findSub_isSome_iff (p s : Str) :
    (findSub p s).isSome = true ↔ ∃ k, k ≤ s.length ∧ startsWithB p (s.drop k) = true := by
  induction s with
  | nil =>
    unfold findSub
    by_cases hs : startsWithB p [] = true
    · rw [if_pos hs]
      simp only [Option.isSome_some, true_iff]
      exact ⟨0, by simp, by simpa using hs⟩
    · rw [if_neg hs]
      simp only [Option.isSome_none, Bool.false_eq_true, false_iff, not_exists]
      intro k hk
      rcases hk with ⟨hk1, hk2⟩
      obtain rfl : k = 0 := by simpa using hk1
      exact hs (by simpa using hk2)
  | cons a t ih =>
    unfold findSub
    by_cases hs : startsWithB p (a :: t) = true
    · rw [if_pos hs]
      simp only [Option.isSome_some, true_iff]
      exact ⟨0, by simp, by simpa using hs⟩
    · rw [if_neg hs]
      have hmap : (Option.map (fun x => x + 1) (findSub p t)).isSome = (findSub p t).isSome := by
        cases findSub p t <;> rfl
      rw [hmap, ih]
      constructor
      · rintro ⟨k, hk, hsw⟩
        refine ⟨k + 1, ?_, by simpa using hsw⟩
        simp only [List.length_cons]
        omega
      · rintro ⟨k, hk, hsw⟩
        cases k with
        | zero => exact absurd (by simpa using hsw) hs
        | succ j =>
          refine ⟨j, ?_, by simpa using hsw⟩
          simp only [List.length_cons] at hk
          omega

theorem occursIn_iff (p s : Str) :
    occursIn p s = true ↔ ∃ k, k ≤ s.length ∧ startsWithB p (s.drop k) = true := by
  unfold occursIn; exact findSub_isSome_iff p s

theorem occursIn_of_parts {p s a b : Str} (h : s = a ++ p ++ b) : occursIn p s = true := by
  rw [occursIn_iff]
  refine ⟨a.length, ?_, ?_⟩
  · subst h; simp
  · subst h
    rw [List.append_assoc, List.drop_left]
    exact startsWithB_append p b

theorem findCharIdx_eq_some {c : Char} {s : Str} {k : Nat}
    (h : findCharIdx c s = some k) : k < s.length ∧ s.get? k = some c := by
  induction s generalizing k with
  | nil => simp [findCharIdx] at h
  | cons a t ih =>
    unfold findCharIdx at h
    by_cases hc : (a == c) = true
    · rw [if_pos hc] at h
      obtain rfl : (0 : Nat) = k := Option.some.inj h
      refine ⟨by simp, ?_⟩
      simpa [List.get?] using beq_iff_eq.mp hc
    · rw [if_neg hc] at h
      simp only [Option.map_eq_some'] at h
      obtain ⟨j, hj, rfl⟩ := h
      obtain ⟨h1, h2⟩ := ih hj
      exact ⟨by simpa using Nat.succ_lt_succ h1, by simpa using h2⟩

theorem splitOnChar_ne_nil (c : Char) (s : Str) : splitOnChar c s ≠ [] := by
  cases s with
  | nil => simp [splitOnChar]
  | cons a t =>
    unfold splitOnChar
    by_cases hc : (a == c) = true
    · rw [if_pos hc]; simp
    · rw [if_neg hc]
      cases splitOnChar c t <;> simp

-- ------------------------------------------------------------------
-- src/core/src/metrics.rs
-- ------------------------------------------------------------------

/-- Word size of the `AtomicU64` counters (`fetch_add` wraps). -/
def W64 : Nat := 2 ^ 64

/-- Model of `PerformanceMetrics` / `MetricsInner` (metrics.rs).  Only the
fields touched by the embedded operations are modelled; the cache and error
counters are never read or written on the embedded paths. -/
structure PerformanceMetrics where
  totalRequests : Nat
  blockedRequests : Nat
  allowedRequests : Nat
  totalProcessingTimeNs : Nat
  avgProcessingTimeNs : Nat
  maxProcessingTimeNs : Nat
  minProcessingTimeNs : Nat
  filterCount : Nat
  deriving DecidableEq, Repr

/-- Model of `PerformanceMetrics::new` (metrics.rs line 46): counters zero,
min sentinel at `u64::MAX`. -/
def PerformanceMetrics.new : PerformanceMetrics :=
  { totalRequests := 0, blockedRequests := 0, allowedRequests := 0
    totalProcessingTimeNs := 0, avgProcessingTimeNs := 0
    maxProcessingTimeNs := 0, minProcessingTimeNs := W64 - 1, filterCount := 0 }

/-- Model of `PerformanceMetrics::record_request` (metrics.rs lines 68-106),
single-threaded semantics: the CAS loop for the minimum reduces to `min`,
the `fetch_add`s wrap at 2^64, and the average is recomputed from the
freshly updated totals. -/
def PerformanceMetrics.record_request (m : PerformanceMetrics) (blocked : Bool)
    (timeNs : Nat) : PerformanceMetrics :=
  let t := timeNs % W64
  let total := (m.totalRequests + 1) % W64
  let totalNs := (m.totalProcessingTimeNs + t) % W64
  { m with
    totalRequests := total
    blockedRequests := if blocked then (m.blockedRequests + 1) % W64 else m.blockedRequests
    allowedRequests := if blocked then m.allowedRequests else (m.allowedRequests + 1) % W64
    totalProcessingTimeNs := totalNs
    maxProcessingTimeNs := max m.maxProcessingTimeNs t
    minProcessingTimeNs := min m.minProcessingTimeNs t
    avgProcessingTimeNs := if 0 < total then totalNs / total else m.avgProcessingTimeNs }

/-- Model of `PerformanceMetrics::set_filter_count` (metrics.rs line 119). -/
def PerformanceMetrics.set_filter_count (m : PerformanceMetrics) (n : Nat) :
    PerformanceMetrics :=
  { m with filterCount := n }

-- ------------------------------------------------------------------
-- src/core/src/filter_engine.rs : data model
-- ------------------------------------------------------------------

/-- Model of `BlockDecision` (filter_engine.rs lines 10-16). -/
structure BlockDecision where
  should_block : Bool
  reason : Option Str
  deriving DecidableEq, Repr

/-- Model of the engine-side `FilterRule` enum (filter_engine.rs lines 28-38). -/
inductive FilterRule where
  | Domain (domain : Str)
  | Pattern (pattern : Str)
  | SubdomainPattern (domain : Str)
  | Exception (pattern : Str)
  deriving DecidableEq, Repr

/-- Model of `PatternType` (filter_engine.rs lines 47-51). -/
inductive PatternType where
  | Domain
  | Subdomain
  deriving DecidableEq, Repr

/-- Model of `PatternInfo` (filter_engine.rs lines 41-45). -/
structure PatternInfo where
  pattern : Str
  rule_type : PatternType
  deriving DecidableEq, Repr

/-- Model of `FilterEngine` (filter_engine.rs lines 53-63).  The Aho-Corasick
automaton is represented by the list of literal patterns it was built from
(`domainMatcher = none` models the absent automaton). -/
structure FilterEngine where
  rules : List FilterRule
  domainMatcher : Option (List Str)
  patternInfo : List PatternInfo
  metrics : PerformanceMetrics
  deriving DecidableEq, Repr

-- ------------------------------------------------------------------
-- src/core/src/filter_engine.rs : parsing and compilation
-- ------------------------------------------------------------------

/-- Model of `FilterEngine::parse_rule` (filter_engine.rs lines 87-102). -/
def FilterEngine.parse_rule (raw : Str) : FilterRule :=
  if startsWithB (S "@@") raw then .Exception (raw.drop 2)
  else if startsWithB (S "||") raw then
    match stripSuffixChar '^' (raw.drop 2) with
    | some domain => .SubdomainPattern domain
    | none => .Pattern raw
  else if raw.any (· == '*') || (startsWithB (S "/") raw && endsWithB (S "/*") raw) then
    .Pattern raw
  else .Domain raw

/-- The `pattern_info` list built by the loop of `FilterEngine::compile_patterns`
(filter_engine.rs lines 152-170); the automaton pattern list is fed the same
entries in the same order. -/
def patternInfoOf : List FilterRule → List PatternInfo
  | [] => []
  | .Domain d :: rest => ⟨d, .Domain⟩ :: patternInfoOf rest
  | .SubdomainPattern d :: rest => ⟨d, .Subdomain⟩ :: patternInfoOf rest
  | _ :: rest => patternInfoOf rest

/-- Model of `FilterEngine::compile_patterns` (filter_engine.rs lines 147-180).
If the literal pattern list is empty the automaton is left as it was. -/
def FilterEngine.compile_patterns (e : FilterEngine) : FilterEngine :=
  let info := patternInfoOf e.rules
  let pats := info.map (·.pattern)
  { e with
    patternInfo := info
    domainMatcher := if pats.isEmpty then e.domainMatcher else some pats
    metrics := e.metrics.set_filter_count e.rules.length }

/-- Model of `FilterEngine::new_with_patterns` (filter_engine.rs lines 132-144). -/
def FilterEngine.new_with_patterns (patterns : List Str) : FilterEngine :=
  FilterEngine.compile_patterns
    { rules := patterns.map FilterEngine.parse_rule
      domainMatcher := none
      patternInfo := []
      metrics := PerformanceMetrics.new }

/-- Model of `FilterEngine::add_rule` (filter_engine.rs lines 393-396):
parse and append, with no recompilation. -/
def FilterEngine.add_rule (e : FilterEngine) (rule : Str) : FilterEngine :=
  { e with rules := e.rules ++ [FilterEngine.parse_rule rule] }

/-- Model of `FilterEngine::build_domain_matcher` (filter_engine.rs line 399). -/
def FilterEngine.build_domain_matcher (e : FilterEngine) : FilterEngine :=
  e.compile_patterns

-- ------------------------------------------------------------------
-- src/core/src/filter_engine.rs : matchers
-- ------------------------------------------------------------------

/-- Model of `FilterEngine::matches_subdomain` (filter_engine.rs lines 271-281). -/
def FilterEngine.matches_subdomain (url domain : Str) : Bool :=
  match findSub (S "://") url with
  | some start =>
    let urlAfterProtocol := url.drop (start + 3)
    let urlHost := urlAfterProtocol.takeWhile (· != '/')
    urlHost == domain || endsWithB ('.' :: domain) urlHost
  | none => false

/-- The loop body of `FilterEngine::matches_wildcard_pattern`
(filter_engine.rs lines 293-318).  `isFirst` is true exactly for index 0 of
the split, and the current part is at the final index exactly when `rest`
is empty, so the two index tests of the source become these flags. -/
def wildcardLoop (url : Str) (startsStar endsStar : Bool) :
    List Str → Bool → Nat → Bool
  | [], _, _ => true
  | p :: rest, isFirst, cur =>
    if p.isEmpty then wildcardLoop url startsStar endsStar rest false cur
    else if isFirst && !startsStar then
      startsWithB p url && wildcardLoop url startsStar endsStar rest false p.length
    else if rest.isEmpty && !endsStar then
      endsWithB p (url.drop cur) && wildcardLoop url startsStar endsStar rest false cur
    else
      match findSub p (url.drop cur) with
      | some pos => wildcardLoop url startsStar endsStar rest false (cur + pos + p.length)
      | none => false

/-- Model of `FilterEngine::matches_wildcard_pattern`
(filter_engine.rs lines 284-321). -/
def FilterEngine.matches_wildcard_pattern (url pattern : Str) : Bool :=
  let parts := splitOnChar '*' pattern
  if parts.isEmpty then true
  else wildcardLoop url (pattern.head? == some '*') (pattern.getLast? == some '*')
         parts true 0

/-- Model of `FilterEngine::matches_subdomain_pattern`
(filter_engine.rs lines 345-373). -/
def FilterEngine.matches_subdomain_pattern (url patternWithoutPre : Str) : Bool :=
  match stripSuffixChar '^' patternWithoutPre with
  | some domain => FilterEngine.matches_subdomain url domain
  | none =>
    match findCharIdx '/' patternWithoutPre with
    | some slashPos =>
      let domain := patternWithoutPre.take slashPos
      let pathPattern := patternWithoutPre.drop slashPos
      if FilterEngine.matches_subdomain url domain then
        match findSub domain url with
        | some urlDomainEnd =>
          let urlAfterDomain := url.drop (urlDomainEnd + domain.length)
          if pathPattern.any (· == '*') then
            FilterEngine.matches_wildcard_pattern urlAfterDomain pathPattern
          else startsWithB pathPattern urlAfterDomain
        | none => false
      else false
    | none => FilterEngine.matches_subdomain url patternWithoutPre

/-- Model of `FilterEngine::matches_domain_path_pattern`
(filter_engine.rs lines 376-390). -/
def FilterEngine.matches_domain_path_pattern (url pattern : Str) (slashPos : Nat) : Bool :=
  let domainPart := pattern.take slashPos
  let pathPart := pattern.drop slashPos
  if occursIn domainPart url then
    match findSub domainPart url with
    | some pos =>
      let urlAfterDomain := url.drop (pos + domainPart.length)
      pathPart == S "/*" || startsWithB (trimStarEnd pathPart) urlAfterDomain
    | none => false
  else false

/-- Model of `FilterEngine::matches_exception_pattern`
(filter_engine.rs lines 324-342). -/
def FilterEngine.matches_exception_pattern (url pattern : Str) : Bool :=
  if startsWithB (S "||") pattern then
    FilterEngine.matches_subdomain_pattern url (pattern.drop 2)
  else if pattern.any (· == '*') then
    FilterEngine.matches_wildcard_pattern url pattern
  else
    match findCharIdx '/' pattern with
    | some slashPos => FilterEngine.matches_domain_path_pattern url pattern slashPos
    | none => occursIn pattern url

-- ------------------------------------------------------------------
-- src/core/src/filter_engine.rs : Aho-Corasick automaton model
-- ------------------------------------------------------------------

/-- Pairs every pattern with its automaton pattern id (registration order). -/
def enumIdxFrom (n : Nat) : List Str → List (Nat × Str)
  | [] => []
  | a :: t => (n, a) :: enumIdxFrom (n + 1) t

/-- First registered pattern that occurs at the current scan position. -/
def acFindAt (pats : List (Nat × Str)) (tail : Str) : Option (Nat × Str) :=
  match pats with
  | [] => none
  | ip :: r => if startsWithB ip.2 tail then some ip else acFindAt r tail

/-- Model of the non-overlapping scan of `AhoCorasick::find_iter`:
positions are visited left to right; a match at position `pos` is reported
as `(pattern id, pos)` and the scan resumes after it (advancing at least
one position).  For a single-pattern automaton — the only shape whose match
order the theorems below rely on — this is exactly the iterator's
behaviour; for several patterns it fixes one of the scan orders. -/
def acScan (pats : List (Nat × Str)) (url : Str) : Nat → Nat → List (Nat × Nat)
  | 0, _ => []
  | fuel + 1, pos =>
    if pos ≤ url.length then
      match acFindAt pats (url.drop pos) with
      | some (i, p) => (i, pos) :: acScan pats url fuel (max (pos + p.length) (pos + 1))
      | none => acScan pats url fuel (pos + 1)
    else []

/-- All matches reported by `find_iter` over the automaton patterns. -/
def acMatches (pats : List Str) (url : Str) : List (Nat × Nat) :=
  acScan (enumIdxFrom 0 pats) url (url.length + 2) 0

/-- The match loop of `FilterEngine::check_aho_corasick_matches`
(filter_engine.rs lines 245-265): look the reported pattern id up in the
side table, boundary-check subdomain patterns, accept domain patterns. -/
def checkMatchList (pinfo : List PatternInfo) (url : Str) :
    List (Nat × Nat) → Option BlockDecision
  | [] => none
  | (i, _) :: rest =>
    let info := pinfo.getD i ⟨[], .Domain⟩
    match info.rule_type with
    | .Subdomain =>
      if FilterEngine.matches_subdomain url info.pattern then
        some ⟨true, some (S "Matched subdomain: " ++ info.pattern)⟩
      else checkMatchList pinfo url rest
    | .Domain => some ⟨true, some (S "Matched ad domain: " ++ info.pattern)⟩

/-- Model of `FilterEngine::check_aho_corasick_matches`
(filter_engine.rs lines 242-268). -/
def FilterEngine.check_aho_corasick_matches (e : FilterEngine) (url : Str) :
    Option BlockDecision :=
  match e.domainMatcher with
  | none => none
  | some pats => checkMatchList e.patternInfo url (acMatches pats url)

-- ------------------------------------------------------------------
-- src/core/src/filter_engine.rs : should_block
-- ------------------------------------------------------------------

/-- The exception pass of `FilterEngine::should_block`
(filter_engine.rs lines 194-203): first exception rule whose pattern
matches the URL. -/
def findExceptionMatch : List FilterRule → Str → Option Str
  | [], _ => none
  | .Exception p :: rest, url =>
    if FilterEngine.matches_exception_pattern url p then some p
    else findExceptionMatch rest url
  | _ :: rest, url => findExceptionMatch rest url

/-- The wildcard pass of `FilterEngine::should_block`
(filter_engine.rs lines 212-231): first `Pattern` rule that matches;
`Domain`, `SubdomainPattern` and `Exception` rules are skipped there. -/
def findPatternMatch : List FilterRule → Str → Option Str
  | [], _ => none
  | .Pattern p :: rest, url =>
    if FilterEngine.matches_wildcard_pattern url p then some p
    else findPatternMatch rest url
  | _ :: rest, url => findPatternMatch rest url

/-- Model of `FilterEngine::should_block` (filter_engine.rs lines 191-239),
returning the decision together with the metrics state after the call.
`t` is the elapsed time the `PerfTimer` reports.  Note that the exception
early return (lines 197-201) does not record the request. -/
def FilterEngine.should_block (e : FilterEngine) (url : Str) (t : Nat) :
    BlockDecision × PerformanceMetrics :=
  match findExceptionMatch e.rules url with
  | some p => (⟨false, some (S "Whitelisted by exception: " ++ p)⟩, e.metrics)
  | none =>
    match e.check_aho_corasick_matches url with
    | some decision => (decision, e.metrics.record_request decision.should_block t)
    | none =>
      match findPatternMatch e.rules url with
      | some p =>
        (⟨true, some (S "Matched pattern: " ++ p)⟩, e.metrics.record_request true t)
      | none => (⟨false, none⟩, e.metrics.record_request false t)

/-- The block decision of `should_block` (the decision does not depend on
the timer value; `0` is passed for it). -/
def FilterEngine.decide_block (e : FilterEngine) (url : Str) : BlockDecision :=
  (e.should_block url 0).1

-- ------------------------------------------------------------------
-- src/core/src/filter_list.rs
-- ------------------------------------------------------------------

/-- The line loop of `FilterListLoader::parse_filter_list`
(filter_list.rs lines 66-86). -/
def parseFilterLines : List Str → List Str
  | [] => []
  | line :: rest =>
    let trimmed := trimStr line
    if trimmed.isEmpty || trimmed.head? == some '!' then parseFilterLines rest
    else if trimmed.head? == some '[' || startsWithB (S "!!!") trimmed then
      parseFilterLines rest
    else if startsWithB (S "##") trimmed || occursIn (S "##") trimmed then
      parseFilterLines rest
    else trimmed :: parseFilterLines rest

/-- Model of `FilterListLoader::parse_filter_list` (filter_list.rs lines
60-89).  The Rust function wraps this list in `Ok`; no code path of the
loop can produce an error, which the totality of this definition reflects. -/
def parse_filter_list (content : Str) : List Str :=
  parseFilterLines (rustLines content)

-- ------------------------------------------------------------------
-- src/core/src/rules.rs
-- ------------------------------------------------------------------

namespace Rules

/-- Model of `RuleType` (rules.rs lines 10-19). -/
inductive RuleType where
  | Block
  | Allow
  | ElementHide
  | ScriptInject
  deriving DecidableEq, Repr

/-- Model of `RuleOptions` (rules.rs lines 31-50). -/
structure RuleOptions where
  third_party : Option Bool := none
  first_party : Option Bool := none
  script : Option Bool := none
  image : Option Bool := none
  stylesheet : Option Bool := none
  object : Option Bool := none
  xmlhttprequest : Option Bool := none
  subdocument : Option Bool := none
  document : Option Bool := none
  websocket : Option Bool := none
  webrtc : Option Bool := none
  ping : Option Bool := none
  media : Option Bool := none
  font : Option Bool := none
  popup : Option Bool := none
  domain : Option (List Str) := none
  sitekey : Option Str := none
  deriving DecidableEq, Repr

/-- Model of `RuleOptions::default()` (derived `Default`): all fields absent. -/
def RuleOptions.default : RuleOptions := {}

/-- Model of the rules.rs `FilterRule` struct (rules.rs lines 22-28). -/
structure FilterRule where
  rule_type : RuleType
  pattern : Str
  domains : Option (List Str)
  options : RuleOptions
  deriving DecidableEq, Repr

/-- One iteration of the option loop of `RuleParser::parse_options`
(rules.rs lines 156-199). -/
def applyOption (o : RuleOptions) (rawOption : Str) : RuleOptions :=
  let opt := trimStr rawOption
  if opt == S "third-party" then { o with third_party := some true }
  else if opt == S "~third-party" then { o with third_party := some false }
  else if opt == S "first-party" then { o with first_party := some true }
  else if opt == S "~first-party" then { o with first_party := some false }
  else if opt == S "script" then { o with script := some true }
  else if opt == S "~script" then { o with script := some false }
  else if opt == S "image" then { o with image := some true }
  else if opt == S "~image" then { o with image := some false }
  else if opt == S "stylesheet" then { o with stylesheet := some true }
  else if opt == S "~stylesheet" then { o with stylesheet := some false }
  else if opt == S "object" then { o with object := some true }
  else if opt == S "~object" then { o with object := some false }
  else if opt == S "xmlhttprequest" then { o with xmlhttprequest := some true }
  else if opt == S "~xmlhttprequest" then { o with xmlhttprequest := some false }
  else if opt == S "subdocument" then { o with subdocument := some true }
  else if opt == S "~subdocument" then { o with subdocument := some false }
  else if opt == S "document" then { o with document := some true }
  else if opt == S "~document" then { o with document := some false }
  else if opt == S "websocket" then { o with websocket := some true }
  else if opt == S "~websocket" then { o with websocket := some false }
  else if opt == S "webrtc" then { o with webrtc := some true }
  else if opt == S "~webrtc" then { o with webrtc := some false }
  else if opt == S "ping" then { o with ping := some true }
  else if opt == S "~ping" then { o with ping := some false }
  else if opt == S "media" then { o with media := some true }
  else if opt == S "~media" then { o with media := some false }
  else if opt == S "font" then { o with font := some true }
  else if opt == S "~font" then { o with font := some false }
  else if opt == S "popup" then { o with popup := some true }
  else if opt == S "~popup" then { o with popup := some false }
  else
    match stripPre (S "domain=") opt with
    | some ds => { o with domain := some ((splitOnChar '|' ds).map trimStr) }
    | none =>
      match stripPre (S "sitekey=") opt with
      | some key => { o with sitekey := some key }
      | none => o

/-- Model of `RuleParser::parse_options` (rules.rs lines 153-202). -/
def parse_options (optionsStr : Str) : RuleOptions :=
  (splitOnChar ',' optionsStr).foldl applyOption RuleOptions.default

/-- Model of `RuleParser::parse_url_rule` (rules.rs lines 119-150).  The
`pattern_to_regex` call of the source only populates a cache and does not
affect the returned rule, so it is not modelled. -/
def parse_url_rule (line : Str) : Option FilterRule :=
  let split := match rfindCharIdx '$' line with
    | some pos => (line.take pos, some (line.drop (pos + 1)))
    | none => (line, none)
  let typed := match stripPre (S "@@") split.1 with
    | some stripped => (RuleType.Allow, stripped)
    | none => (RuleType.Block, split.1)
  let options := match split.2 with
    | some o => parse_options o
    | none => RuleOptions.default
  some { rule_type := typed.1, pattern := typed.2, domains := options.domain
         options := options }

/-- Model of `RuleParser::parse_element_hiding_rule` (rules.rs lines 89-116). -/
def parse_element_hiding_rule (line : Str) : Option FilterRule :=
  let isException := occursIn (S "#@#") line
  let sep := if isException then S "#@#" else S "##"
  match findSub sep line with
  | some pos =>
    let domainsPart := line.take pos
    let selector := trimStr (line.drop (pos + sep.length))
    let domains := if domainsPart.isEmpty then none
      else some ((splitOnChar ',' domainsPart).map trimStr)
    some { rule_type := if isException then .Allow else .ElementHide
           pattern := selector, domains := domains, options := RuleOptions.default }
  | none => none

/-- Model of `RuleParser::parse_rule` (rules.rs lines 66-86). -/
def parse_rule (line : Str) : Option FilterRule :=
  let line := trimStr line
  if line.isEmpty || line.head? == some '!' then none
  else if line.head? == some '[' && line.getLast? == some ']' then none
  else if occursIn (S "##") line || occursIn (S "#@#") line then
    parse_element_hiding_rule line
  else parse_url_rule line

/-- Model of `ContentType` (rules.rs lines 421-434). -/
inductive ContentType where
  | Script
  | Image
  | Stylesheet
  | Object
  | XmlHttpRequest
  | Subdocument
  | Document
  | Websocket
  | Media
  | Font
  | Other
  deriving DecidableEq, Repr

/-- Model of `MatchOptions` (rules.rs lines 413-418). -/
structure MatchOptions where
  domain : Option Str
  content_type : ContentType
  is_third_party : Bool
  deriving DecidableEq, Repr

/-- Model of `RuleMatcher` (rules.rs lines 254-259); the `HashMap` domain
index is modelled as an association list (it is never read by the matching
path). -/
structure RuleMatcher where
  block_rules : List FilterRule
  allow_rules : List FilterRule
  element_hide_rules : List FilterRule
  domain_index : List (Str × List Nat)
  deriving DecidableEq, Repr

/-- Model of `RuleMatcher::new` (rules.rs lines 263-270). -/
def RuleMatcher.new : RuleMatcher := ⟨[], [], [], []⟩

/-- `HashMap::entry(key).or_default().push(v)` on the association-list model. -/
def indexPush : List (Str × List Nat) → Str → Nat → List (Str × List Nat)
  | [], key, v => [(key, [v])]
  | (k, vs) :: r, key, v =>
    if k == key then (k, vs ++ [v]) :: r else (k, vs) :: indexPush r key v

/-- Model of `RuleMatcher::update_domain_index` (rules.rs lines 293-308). -/
def RuleMatcher.update_domain_index (m : RuleMatcher) (ruleIndex : Nat)
    (isBlock : Bool) : RuleMatcher :=
  let rules := if isBlock then m.block_rules else m.allow_rules
  match rules.get? ruleIndex with
  | some rule =>
    match rule.options.domain with
    | some domains =>
      let step := fun di d =>
        indexPush di ((if isBlock then S "block" else S "allow") ++ ':' :: d) ruleIndex
      { m with domain_index := domains.foldl step m.domain_index }
    | none => m
  | none => m

/-- Model of `RuleMatcher::add_rule` (rules.rs lines 273-290). -/
def RuleMatcher.add_rule (m : RuleMatcher) (rule : FilterRule) : RuleMatcher :=
  match rule.rule_type with
  | .Block =>
    let index := m.block_rules.length
    let m := { m with block_rules := m.block_rules ++ [rule] }
    m.update_domain_index index true
  | .Allow =>
    let index := m.allow_rules.length
    let m := { m with allow_rules := m.allow_rules ++ [rule] }
    m.update_domain_index index false
  | .ElementHide => { m with element_hide_rules := m.element_hide_rules ++ [rule] }
  | _ => m

/-- Model of `RuleMatcher::matches_content_type` (rules.rs lines 358-374). -/
def matches_content_type (rule : FilterRule) (options : MatchOptions) : Bool :=
  match options.content_type with
  | .Script => rule.options.script.getD true
  | .Image => rule.options.image.getD true
  | .Stylesheet => rule.options.stylesheet.getD true
  | .Object => rule.options.object.getD true
  | .XmlHttpRequest => rule.options.xmlhttprequest.getD true
  | .Subdocument => rule.options.subdocument.getD true
  | .Document => rule.options.document.getD true
  | .Websocket => rule.options.websocket.getD true
  | .Media => rule.options.media.getD true
  | .Font => rule.options.font.getD true
  | .Other => true

/-- Model of `RuleMatcher::matches_pattern` (rules.rs lines 377-389). -/
def matches_pattern (pattern url : Str) : Bool :=
  if startsWithB (S "||") pattern then
    match findCharIdx '^' (pattern.drop 2) with
    | some separatorPos => occursIn ((pattern.drop 2).take separatorPos) url
    | none => occursIn (trimStarBoth pattern) url
  else occursIn (trimStarBoth pattern) url

/-- Model of `RuleMatcher::matches_rule` (rules.rs lines 330-355).  The
domain-scope test is skipped entirely when the context has no page domain. -/
def matches_rule (rule : FilterRule) (url : Str) (options : MatchOptions) : Bool :=
  (match rule.options.domain, options.domain with
   | some domains, some pageDomain =>
     domains.any (fun d =>
       if d.head? == some '~' then !(endsWithB (d.drop 1) pageDomain)
       else endsWithB d pageDomain)
   | _, _ => true)
  && matches_content_type rule options
  && matches_pattern rule.pattern url

/-- Model of `RuleMatcher::should_block` (rules.rs lines 311-327). -/
def RuleMatcher.should_block (m : RuleMatcher) (url : Str)
    (options : MatchOptions) : Bool :=
  if m.allow_rules.any (fun r => matches_rule r url options) then false
  else m.block_rules.any (fun r => matches_rule r url options)

end Rules

-- ------------------------------------------------------------------
-- Spec-side definitions (phrased after the specification text)
-- ------------------------------------------------------------------

/-- Spec side (C1): the authority component of a URL — the text after
`"://"`, delimited by the first `/`; `none` when the URL has no `"://"`. -/
def specAuthority (url : Str) : Option Str :=
  (findSub (S "://") url).map (fun i => (url.drop (i + 3)).takeWhile (· != '/'))

/-- Spec side (C1): the URLs a `SubdomainAnchor(d)` rule is specified to
block — those whose authority equals `d` or ends with `"." ++ d`. -/
def specSubdomainBlocks (d url : Str) : Bool :=
  match specAuthority url with
  | some host => host == d || endsWithB ('.' :: d) host
  | none => false

/-- Spec side (C4): whether the URL's host contains the literal as a
substring (the reading under which the claim states `Domain` rules match). -/
def specHostContains (lit url : Str) : Bool :=
  match specAuthority url with
  | some host => occursIn lit host
  | none => false

/-- Spec side (C3): the cursor phase of the wildcard algorithm as the
specification words it — interior fragments are found at or after the
cursor which then advances past them, and when the pattern does not end
with `*` the last fragment must be a suffix of the URL tail after the
cursor. -/
def specWildcardGo (endsStar : Bool) : List Str → Str → Bool
  | [], _ => true
  | [f], tail => if endsStar then occursIn f tail else endsWithB f tail
  | f :: g :: rest, tail =>
    match findSub f tail with
    | some pos => specWildcardGo endsStar (g :: rest) (tail.drop (pos + f.length))
    | none => false

/-- Spec side (C3): the wildcard matcher as specified — split the pattern
on `*` into literal fragments (empty fragments are skipped); when the
pattern does not start with `*` the first fragment must occur at position
0 and the cursor advances past it; a pattern consisting only of `*`
characters (empty fragment list) matches every URL.  When a fragment is
both first and last, the anchored-start rule applies (the source's branch
order, which is also the only reading under which a one-fragment pattern
can match itself). -/
def specWildcard (url pattern : Str) : Bool :=
  let frags := (splitOnChar '*' pattern).filter (fun f => !f.isEmpty)
  match frags with
  | [] => true
  | f :: rest =>
    if pattern.head? == some '*' then
      specWildcardGo (pattern.getLast? == some '*') (f :: rest) url
    else
      startsWithB f url &&
        specWildcardGo (pattern.getLast? == some '*') rest (url.drop f.length)

/-- Spec side (C6): the output `parse_filter_list` is claimed to produce —
trimmed non-empty lines that are not comments, not bracketed metadata and
not cosmetic-hiding lines (containing `"##"` or `"#@#"`). -/
def claimParseFilterList (content : Str) : List Str :=
  ((rustLines content).map trimStr).filter (fun t =>
    !(t.isEmpty || t.head? == some '!' || t.head? == some '[' ||
      occursIn (S "##") t || occursIn (S "#@#") t))

/-- Amended spec side (C6): same as `claimParseFilterList` except that only
lines containing `"##"` are dropped as cosmetic — a line containing `"#@#"`
but not `"##"` is kept. -/
def amendedParseFilterList (content : Str) : List Str :=
  ((rustLines content).map trimStr).filter (fun t =>
    !(t.isEmpty || t.head? == some '!' || t.head? == some '[' ||
      occursIn (S "##") t))

-- ------------------------------------------------------------------
-- Checked variants: Rust partiality made explicit (C5).
-- An outer `none` models a panic (slice out of bounds / side-table index
-- out of bounds); the safety theorem shows the checked pipeline always
-- returns `some` of the total model.
-- ------------------------------------------------------------------

/-- Checked variant of `wildcardLoop`: every `url[current_pos..]` slice of
the source is performed through `sliceFrom`. -/
def wildcardLoopC (url : Str) (startsStar endsStar : Bool) :
    List Str → Bool → Nat → Option Bool
  | [], _, _ => some true
  | p :: rest, isFirst, cur =>
    if p.isEmpty then wildcardLoopC url startsStar endsStar rest false cur
    else if isFirst && !startsStar then
      if startsWithB p url then wildcardLoopC url startsStar endsStar rest false p.length
      else some false
    else if rest.isEmpty && !endsStar then
      (sliceFrom url cur).bind (fun tail =>
        if endsWithB p tail then wildcardLoopC url startsStar endsStar rest false cur
        else some false)
    else
      (sliceFrom url cur).bind (fun tail =>
        match findSub p tail with
        | some pos => wildcardLoopC url startsStar endsStar rest false (cur + pos + p.length)
        | none => some false)

/-- Checked variant of `FilterEngine::matches_wildcard_pattern`. -/
def matchesWildcardC (url pattern : Str) : Option Bool :=
  let parts := splitOnChar '*' pattern
  if parts.isEmpty then some true
  else wildcardLoopC url (pattern.head? == some '*') (pattern.getLast? == some '*')
         parts true 0

/-- Checked variant of `FilterEngine::matches_subdomain`: the
`url[start + 3..]` slice is performed through `sliceFrom`. -/
def matchesSubdomainC (url domain : Str) : Option Bool :=
  match findSub (S "://") url with
  | some start =>
    (sliceFrom url (start + 3)).map (fun urlAfterProtocol =>
      let urlHost := urlAfterProtocol.takeWhile (· != '/')
      urlHost == domain || endsWithB ('.' :: domain) urlHost)
  | none => some false

/-- Checked variant of `checkMatchList`: the `pattern_info[id]` lookup is a
checked index. -/
def checkMatchListC (pinfo : List PatternInfo) (url : Str) :
    List (Nat × Nat) → Option (Option BlockDecision)
  | [] => some none
  | (i, _) :: rest =>
    (pinfo.get? i).bind (fun info =>
      match info.rule_type with
      | .Subdomain =>
        (matchesSubdomainC url info.pattern).bind (fun hit =>
          if hit then some (some ⟨true, some (S "Matched subdomain: " ++ info.pattern)⟩)
          else checkMatchListC pinfo url rest)
      | .Domain => some (some ⟨true, some (S "Matched ad domain: " ++ info.pattern)⟩))

/-- Checked variant of `FilterEngine::check_aho_corasick_matches`. -/
def checkAhoC (e : FilterEngine) (url : Str) : Option (Option BlockDecision) :=
  match e.domainMatcher with
  | none => some none
  | some pats => checkMatchListC e.patternInfo url (acMatches pats url)

/-- Checked variant of `FilterEngine::matches_subdomain_pattern`. -/
def matchesSubdomainPatternC (url patternWithoutPre : Str) : Option Bool :=
  match stripSuffixChar '^' patternWithoutPre with
  | some domain => matchesSubdomainC url domain
  | none =>
    match findCharIdx '/' patternWithoutPre with
    | some slashPos =>
      (sliceFrom patternWithoutPre slashPos).bind (fun pathPattern =>
        let domain := patternWithoutPre.take slashPos
        (matchesSubdomainC url domain).bind (fun hit =>
          if hit then
            match findSub domain url with
            | some urlDomainEnd =>
              (sliceFrom url (urlDomainEnd + domain.length)).bind (fun urlAfterDomain =>
                if pathPattern.any (· == '*') then
                  matchesWildcardC urlAfterDomain pathPattern
                else some (startsWithB pathPattern urlAfterDomain))
            | none => some false
          else some false))
    | none => matchesSubdomainC url patternWithoutPre

/-- Checked variant of `FilterEngine::matches_domain_path_pattern`. -/
def matchesDomainPathC (url pattern : Str) (slashPos : Nat) : Option Bool :=
  (sliceFrom pattern slashPos).bind (fun pathPart =>
    let domainPart := pattern.take slashPos
    if occursIn domainPart url then
      match findSub domainPart url with
      | some pos =>
        (sliceFrom url (pos + domainPart.length)).map (fun urlAfterDomain =>
          pathPart == S "/*" || startsWithB (trimStarEnd pathPart) urlAfterDomain)
      | none => some false
    else some false)

/-- Checked variant of `FilterEngine::matches_exception_pattern`. -/
def matchesExceptionC (url pattern : Str) : Option Bool :=
  if startsWithB (S "||") pattern then
    matchesSubdomainPatternC url (pattern.drop 2)
  else if pattern.any (· == '*') then matchesWildcardC url pattern
  else
    match findCharIdx '/' pattern with
    | some slashPos => matchesDomainPathC url pattern slashPos
    | none => some (occursIn pattern url)

/-- Checked variant of the exception pass of `should_block`. -/
def findExceptionMatchC : List FilterRule → Str → Option (Option Str)
  | [], _ => some none
  | .Exception p :: rest, url =>
    (matchesExceptionC url p).bind (fun hit =>
      if hit then some (some p) else findExceptionMatchC rest url)
  | _ :: rest, url => findExceptionMatchC rest url

/-- Checked variant of the wildcard pass of `should_block`. -/
def findPatternMatchC : List FilterRule → Str → Option (Option Str)
  | [], _ => some none
  | .Pattern p :: rest, url =>
    (matchesWildcardC url p).bind (fun hit =>
      if hit then some (some p) else findPatternMatchC rest url)
  | _ :: rest, url => findPatternMatchC rest url

/-- Checked variant of `FilterEngine::should_block`: `none` exactly when
some slice or side-table access of the source would panic. -/
def shouldBlockC (e : FilterEngine) (url : Str) (t : Nat) :
    Option (BlockDecision × PerformanceMetrics) :=
  (findExceptionMatchC e.rules url).bind (fun exc =>
    match exc with
    | some p => some (⟨false, some (S "Whitelisted by exception: " ++ p)⟩, e.metrics)
    | none =>
      (checkAhoC e url).bind (fun ac =>
        match ac with
        | some decision => some (decision, e.metrics.record_request decision.should_block t)
        | none =>
          (findPatternMatchC e.rules url).bind (fun pat =>
            match pat with
            | some p =>
              some (⟨true, some (S "Matched pattern: " ++ p)⟩,
                e.metrics.record_request true t)
            | none => some (⟨false, none⟩, e.metrics.record_request false t))))

-- ------------------------------------------------------------------
-- Lemmas: wildcard matcher versus its specification (C3)
-- ------------------------------------------------------------------

theorem wildcardLoop_all_empty (url : Str) (ss es : Bool) :
    ∀ (parts : List Str) (b : Bool) (cur : Nat),
      (∀ q ∈ parts, q.isEmpty = true) →
      wildcardLoop url ss es parts b cur = true := by
  intro parts
  induction parts with
  | nil => intro b cur _; rfl
  | cons p rest ih =>
    intro b cur hall
    have hp : p.isEmpty = true := hall p (by simp)
    unfold wildcardLoop
    rw [if_pos hp]
    exact ih false cur (fun q hq => hall q (by simp [hq]))

theorem getLast?_cons_of_ne_nil {α : Type} (x : α) {L : List α} (h : L ≠ []) :
    (x :: L).getLast? = L.getLast? := by
  cases L with
  | nil => exact absurd rfl h
  | cons y ys => exact List.getLast?_cons_cons

theorem splitStar_singleton_ne_empty {t h : Str} (ht : t ≠ [])
    (hs : splitOnChar '*' t = [h]) : h ≠ [] := by
  cases t with
  | nil => exact absurd rfl ht
  | cons b t' =>
    unfold splitOnChar at hs
    by_cases hb : (b == '*') = true
    · rw [if_pos hb] at hs
      have := splitOnChar_ne_nil '*' t'
      cases hsp : splitOnChar '*' t' with
      | nil => exact absurd hsp this
      | cons z zs => rw [hsp] at hs; simp at hs
    · rw [if_neg hb] at hs
      cases hsp : splitOnChar '*' t' with
      | nil => exact absurd hsp (splitOnChar_ne_nil '*' t')
      | cons z zs =>
        rw [hsp] at hs
        simp at hs
        obtain ⟨⟨rfl, rfl⟩, rfl⟩ := hs
        simp

theorem splitStar_getLast_isEmpty (p : Str) (hp : p ≠ []) :
    ((splitOnChar '*' p).getLast?.map List.isEmpty)
      = some (p.getLast? == some '*') := by
  induction p with
  | nil => exact absurd rfl hp
  | cons a t ih =>
    cases t with
    | nil =>
      by_cases ha : (a == '*') = true
      · have : a = '*' := beq_iff_eq.mp ha
        subst this
        rfl
      · unfold splitOnChar
        rw [if_neg ha]
        simp only [splitOnChar]
        simp [ha]
    | cons b t' =>
      have htne : (b :: t') ≠ [] := by simp
      have ih' := ih htne
      unfold splitOnChar
      by_cases ha : (a == '*') = true
      · rw [if_pos ha]
        have hne := splitOnChar_ne_nil '*' (b :: t')
        rw [getLast?_cons_of_ne_nil _ hne, ih']
        have h3 : (a :: b :: t').getLast? = (b :: t').getLast? :=
          List.getLast?_cons_cons
        rw [h3]
      · rw [if_neg ha]
        cases hsp : splitOnChar '*' (b :: t') with
        | nil => exact absurd hsp (splitOnChar_ne_nil '*' (b :: t'))
        | cons h r =>
          cases r with
          | nil =>
            have hh : h ≠ [] := splitStar_singleton_ne_empty htne hsp
            rw [hsp] at ih'
            simp only [List.getLast?_singleton, Option.map_some'] at ih'
            have hlast : (a :: b :: t').getLast? = (b :: t').getLast? :=
              List.getLast?_cons_cons
            simp only [List.getLast?_singleton, Option.map_some']
            rw [hlast, ← ih']
            simp [hh]
          | cons r0 rs =>
            have hrne : (r0 :: rs : List Str) ≠ [] := by simp
            have e1 : ((a :: h) :: r0 :: rs).getLast? = (r0 :: rs).getLast? :=
              List.getLast?_cons_cons
            have e2 : (h :: r0 :: rs).getLast? = (r0 :: rs).getLast? :=
              List.getLast?_cons_cons
            rw [hsp] at ih'
            rw [e2] at ih'
            rw [e1, ih']
            have h4 : (a :: b :: t').getLast? = (b :: t').getLast? :=
              List.getLast?_cons_cons
            rw [h4]

/-- The side condition under which the wildcard loop is traversed: if the
split has a last piece, that piece is empty exactly when the pattern ends
with `*`. -/
def lastFlagOk (parts : List Str) (es : Bool) : Prop :=
  match parts.getLast? with
  | none => True
  | some l => (l.isEmpty = true ↔ es = true)

theorem wildcardLoop_eq_specGo (url : Str) (ss es : Bool) :
    ∀ (parts : List Str) (cur : Nat), lastFlagOk parts es →
      wildcardLoop url ss es parts false cur
        = specWildcardGo es (parts.filter (fun f => !f.isEmpty)) (url.drop cur) := by
  intro parts
  induction parts with
  | nil => intro cur _; rfl
  | cons p rest ih =>
    intro cur hflag
    by_cases hp : p.isEmpty = true
    · -- the empty piece is skipped on both sides
      unfold wildcardLoop
      rw [if_pos hp]
      have hfilter : (p :: rest).filter (fun f => !f.isEmpty)
          = rest.filter (fun f => !f.isEmpty) := by
        simp [List.filter, hp]
      rw [hfilter]
      cases rest with
      | nil => rfl
      | cons r0 rs =>
        refine ih cur ?_
        unfold lastFlagOk at hflag ⊢
        rwa [List.getLast?_cons_cons] at hflag
    · -- a literal fragment
      have hpfilter : (p :: rest).filter (fun f => !f.isEmpty)
          = p :: rest.filter (fun f => !f.isEmpty) := by
        simp [List.filter, hp]
      unfold wildcardLoop
      simp only [Bool.false_and, Bool.false_eq_true, if_false, if_neg hp]
      cases rest with
      | nil =>
        -- `p` is the final piece, so the pattern cannot end in `*`
        have hes : es = false := by
          unfold lastFlagOk at hflag
          simp only [List.getLast?_singleton] at hflag
          cases es with
          | false => rfl
          | true => exact absurd (hflag.2 rfl) hp
        subst hes
        simp only [List.isEmpty_nil, Bool.not_false, Bool.true_and, if_true]
        rw [hpfilter]
        simp only [List.filter_nil]
        unfold specWildcardGo
        cases hEnds : endsWithB p (url.drop cur) <;> simp [wildcardLoop]
      | cons r0 rs =>
        have hrestne : (r0 :: rs : List Str) ≠ [] := by simp
        have hflagrest : lastFlagOk (r0 :: rs) es := by
          unfold lastFlagOk at hflag ⊢
          rwa [List.getLast?_cons_cons] at hflag
        simp only [List.isEmpty_cons, Bool.false_and, Bool.false_eq_true, if_false]
        rw [hpfilter]
        by_cases hrest : (r0 :: rs).filter (fun f => !f.isEmpty) = []
        · -- the remaining pieces are all empty, so the pattern ends in `*`
          have hall : ∀ q ∈ (r0 :: rs), q.isEmpty = true := by
            intro q hq
            have := List.filter_eq_nil.mp hrest q hq
            simpa using this
          have hes : es = true := by
            obtain ⟨l, hl, hmem⟩ : ∃ l, (r0 :: rs).getLast? = some l ∧ l ∈ (r0 :: rs) := by
              refine ⟨(r0 :: rs).getLast hrestne, ?_, List.getLast_mem hrestne⟩
              simp [List.getLast?_eq_getLast _ hrestne]
            unfold lastFlagOk at hflagrest
            rw [hl] at hflagrest
            exact hflagrest.1 (hall l hmem)
          subst hes
          rw [hrest]
          unfold specWildcardGo
          cases hfind : findSub p (url.drop cur) with
          | some pos =>
            show wildcardLoop url ss true (r0 :: rs) false (cur + pos + p.length)
                = if true = true then occursIn p (url.drop cur) else endsWithB p (url.drop cur)
            rw [wildcardLoop_all_empty url ss true (r0 :: rs) false _ hall]
            simp [occursIn, hfind]
          | none => simp [occursIn, hfind]
        · -- at least one further literal fragment remains
          obtain ⟨g, gs, hgs⟩ : ∃ g gs, (r0 :: rs).filter (fun f => !f.isEmpty) = g :: gs := by
            cases hc : (r0 :: rs).filter (fun f => !f.isEmpty) with
            | nil => exact absurd hc hrest
            | cons g gs => exact ⟨g, gs, rfl⟩
          rw [hgs]
          unfold specWildcardGo
          cases hfind : findSub p (url.drop cur) with
          | some pos =>
            show wildcardLoop url ss es (r0 :: rs) false (cur + pos + p.length)
                = specWildcardGo es (g :: gs) ((url.drop cur).drop (pos + p.length))
            rw [ih _ hflagrest, hgs, List.drop_drop]
            have harith : cur + (pos + p.length) = cur + pos + p.length := by omega
            rw [harith]
          | none => rfl

theorem lastFlagOk_splitStar (p : Str) (hp : p ≠ []) :
    lastFlagOk (splitOnChar '*' p) (p.getLast? == some '*') := by
  have h := splitStar_getLast_isEmpty p hp
  unfold lastFlagOk
  cases hl : (splitOnChar '*' p).getLast? with
  | none => trivial
  | some l =>
    rw [hl] at h
    simp only [Option.map_some'] at h
    have h2 := Option.some.inj h
    show l.isEmpty = true ↔ (p.getLast? == some '*') = true
    rw [h2]

theorem lastFlagOk_tail {x : Str} {L : List Str} {es : Bool} (hL : L ≠ [])
    (h : lastFlagOk (x :: L) es) : lastFlagOk L es := by
  unfold lastFlagOk at h ⊢
  rwa [getLast?_cons_of_ne_nil x hL] at h

theorem splitOnChar_cons_eq (ch a : Char) (t : Str) :
    splitOnChar ch (a :: t)
      = if a == ch then [] :: splitOnChar ch t
        else
          match splitOnChar ch t with
          | [] => [[a]]
          | h :: r => (a :: h) :: r := rfl

theorem matches_wildcard_eq_spec (url pattern : Str) :
    FilterEngine.matches_wildcard_pattern url pattern = specWildcard url pattern := by
  cases pattern with
  | nil =>
    simp [FilterEngine.matches_wildcard_pattern, specWildcard, splitOnChar, wildcardLoop]
  | cons c t =>
    have hne : (c :: t : Str) ≠ [] := by simp
    have hflag := lastFlagOk_splitStar (c :: t) hne
    by_cases hc : (c == '*') = true
    · -- pattern starts with `*`
      have hsplit : splitOnChar '*' (c :: t) = [] :: splitOnChar '*' t := by
        rw [splitOnChar_cons_eq, if_pos hc]
      have hLne := splitOnChar_ne_nil '*' t
      have hhead : ((c :: t : Str).head? == some '*') = true := by
        simp only [List.head?_cons]
        simpa using hc
      unfold FilterEngine.matches_wildcard_pattern
      rw [hsplit] at hflag ⊢
      simp only [List.isEmpty_cons, if_false, Bool.false_eq_true]
      unfold wildcardLoop
      simp only [List.isEmpty_nil, if_true]
      rw [wildcardLoop_eq_specGo url _ _ _ 0 (lastFlagOk_tail hLne hflag)]
      rw [List.drop_zero]
      unfold specWildcard
      rw [hsplit]
      have hfilter : ([] :: splitOnChar '*' t).filter (fun f => !f.isEmpty)
          = (splitOnChar '*' t).filter (fun f => !f.isEmpty) := by
        simp [List.filter]
      rw [hfilter, hhead]
      cases hfrag : (splitOnChar '*' t).filter (fun f => !f.isEmpty) with
      | nil => simp [specWildcardGo]
      | cons f rest => simp
    · -- pattern starts with a literal character
      obtain ⟨h, r, hsplit2⟩ : ∃ h r, splitOnChar '*' t = h :: r := by
        cases hx : splitOnChar '*' t with
        | nil => exact absurd hx (splitOnChar_ne_nil '*' t)
        | cons h r => exact ⟨h, r, rfl⟩
      have hsplit : splitOnChar '*' (c :: t) = (c :: h) :: r := by
        rw [splitOnChar_cons_eq, if_neg hc, hsplit2]
      have hhead : ((c :: t : Str).head? == some '*') = false := by
        simp only [List.head?_cons]
        simpa using hc
      unfold FilterEngine.matches_wildcard_pattern
      rw [hsplit] at hflag ⊢
      simp only [List.isEmpty_cons, if_false, Bool.false_eq_true]
      unfold wildcardLoop
      simp only [List.isEmpty_cons, Bool.false_eq_true, if_false, hhead,
        Bool.not_false, Bool.true_and, if_true]
      have hflagr : lastFlagOk r ((c :: t : Str).getLast? == some '*') := by
        cases r with
        | nil => unfold lastFlagOk; trivial
        | cons r0 rs => exact lastFlagOk_tail (by simp) hflag
      rw [wildcardLoop_eq_specGo url _ _ _ _ hflagr]
      unfold specWildcard
      rw [hsplit]
      have hfilter : ((c :: h) :: r).filter (fun f => !f.isEmpty)
          = (c :: h) :: r.filter (fun f => !f.isEmpty) := by
        simp [List.filter]
      rw [hfilter, hhead]
      simp

-- ------------------------------------------------------------------
-- Lemmas: single-pattern automaton scans (C1, C4)
-- ------------------------------------------------------------------

theorem acScan_single_eq_nil_iff (d url : Str) :
    ∀ (fuel pos : Nat), url.length + 1 ≤ fuel + pos →
      (acScan [(0, d)] url fuel pos = [] ↔
        ∀ k, pos ≤ k → k ≤ url.length → startsWithB d (url.drop k) = false) := by
  intro fuel
  induction fuel with
  | zero =>
    intro pos hfuel
    simp only [acScan, true_iff]
    intro k h1 h2
    omega
  | succ n ih =>
    intro pos hfuel
    unfold acScan
    by_cases hpos : pos ≤ url.length
    · rw [if_pos hpos]
      unfold acFindAt
      by_cases hsw : startsWithB d (url.drop pos) = true
      · rw [if_pos hsw]
        simp only [List.cons_ne_nil, false_iff, not_forall]
        exact ⟨pos, le_refl pos, hpos, by simp [hsw]⟩
      · rw [if_neg hsw]
        show acScan [(0, d)] url n (pos + 1) = [] ↔ _
        rw [ih (pos + 1) (by omega)]
        constructor
        · intro h k h1 h2
          rcases Nat.eq_or_lt_of_le h1 with heq | hlt
          · subst heq
            exact Bool.eq_false_iff.mpr hsw
          · exact h k hlt h2
        · intro h k h1 h2
          exact h k (by omega) h2
    · rw [if_neg hpos]
      simp only [true_iff]
      intro k h1 h2
      omega

theorem acScan_single_fst (d url : Str) :
    ∀ (fuel pos : Nat) (m : Nat × Nat), m ∈ acScan [(0, d)] url fuel pos → m.1 = 0 := by
  intro fuel
  induction fuel with
  | zero => intro pos m hm; simp [acScan] at hm
  | succ n ih =>
    intro pos m hm
    unfold acScan at hm
    by_cases hpos : pos ≤ url.length
    · rw [if_pos hpos] at hm
      unfold acFindAt at hm
      by_cases hsw : startsWithB d (url.drop pos) = true
      · rw [if_pos hsw] at hm
        simp only [List.mem_cons] at hm
        rcases hm with rfl | hm
        · rfl
        · exact ih _ m hm
      · rw [if_neg hsw] at hm
        exact ih _ m hm
    · rw [if_neg hpos] at hm
      simp at hm

theorem checkMatchList_single_sub (d url : Str) (ms : List (Nat × Nat))
    (hms : ∀ m ∈ ms, m.1 = 0) :
    checkMatchList [⟨d, .Subdomain⟩] url ms
      = if ms.isEmpty then none
        else if FilterEngine.matches_subdomain url d then
          some ⟨true, some (S "Matched subdomain: " ++ d)⟩
        else none := by
  induction ms with
  | nil => rfl
  | cons m rest ih =>
    obtain ⟨i, p⟩ := m
    have hi : i = 0 := hms (i, p) (by simp)
    subst hi
    unfold checkMatchList
    simp only [List.getD, List.get?, Option.getD_some, List.isEmpty_cons, if_false,
      Bool.false_eq_true]
    by_cases hsd : FilterEngine.matches_subdomain url d = true
    · rw [if_pos hsd, if_pos hsd]
    · rw [if_neg hsd, if_neg hsd]
      rw [ih (fun m hm => hms m (by simp [hm]))]
      by_cases hrest : rest.isEmpty = true
      · rw [if_pos hrest]
      · rw [if_neg hrest, if_neg hsd]

theorem checkMatchList_single_dom (d url : Str) (ms : List (Nat × Nat))
    (hms : ∀ m ∈ ms, m.1 = 0) :
    checkMatchList [⟨d, .Domain⟩] url ms
      = if ms.isEmpty then none
        else some ⟨true, some (S "Matched ad domain: " ++ d)⟩ := by
  cases ms with
  | nil => rfl
  | cons m rest =>
    obtain ⟨i, p⟩ := m
    have hi : i = 0 := hms (i, p) (by simp)
    subst hi
    rfl

theorem occursIn_nil_iff_of_single {d url : Str} :
    occursIn d url = true ↔ acScan [(0, d)] url (url.length + 2) 0 ≠ [] := by
  rw [occursIn_iff, ne_eq]
  rw [acScan_single_eq_nil_iff d url (url.length + 2) 0 (by omega)]
  constructor
  · rintro ⟨k, hk, hsw⟩ h
    exact absurd (h k (Nat.zero_le k) hk) (by simp [hsw])
  · intro h
    by_contra hno
    push_neg at hno
    exact h (fun k _ h2 => by
      cases hx : startsWithB d (url.drop k) with
      | false => rfl
      | true => exact absurd hx (by simpa using hno k h2))

theorem matches_subdomain_occurs {url d : Str}
    (h : FilterEngine.matches_subdomain url d = true) : occursIn d url = true := by
  unfold FilterEngine.matches_subdomain at h
  cases hfind : findSub (S "://") url with
  | none => rw [hfind] at h; simp at h
  | some st =>
    rw [hfind] at h
    have hbound := (findSub_eq_some hfind).2
    have hlen3 : (S "://").length = 3 := rfl
    rw [hlen3] at hbound
    simp only [Bool.or_eq_true, beq_iff_eq] at h
    set A := url.drop (st + 3) with hA
    have hsplitA : A.takeWhile (· != '/') ++ A.dropWhile (· != '/') = A :=
      List.takeWhile_append_dropWhile _ _
    set host := A.takeWhile (· != '/') with hhost
    rcases h with heq | hsuf
    · -- host equals the domain
      rw [occursIn_iff]
      refine ⟨st + 3, by omega, ?_⟩
      rw [← hA, ← hsplitA, ← heq]
      exact startsWithB_append _ _
    · -- host ends with "." ++ domain
      obtain ⟨pre, hpre⟩ := (endsWithB_iff _ _).1 hsuf
      rw [occursIn_iff]
      refine ⟨st + 3 + (pre.length + 1), ?_, ?_⟩
      · have hAlen : A.length = url.length - (st + 3) := by
          rw [hA]; simp
        have hhostlen : host.length = pre.length + 1 + d.length := by
          rw [hpre, List.length_append, List.length_cons]
          omega
        have hhostle : host.length ≤ A.length := by
          rw [← hsplitA]; simp
        omega
      · have hd : url.drop (st + 3 + (pre.length + 1))
            = A.drop (pre.length + 1) := by
          rw [hA, List.drop_drop]
        rw [hd, ← hsplitA, hpre]
        have : (pre ++ '.' :: d) ++ A.dropWhile (· != '/')
            = (pre ++ ['.']) ++ (d ++ A.dropWhile (· != '/')) := by
          simp
        rw [this]
        have hplen : (pre ++ ['.']).length = pre.length + 1 := by simp
        rw [← hplen, List.drop_left]
        exact startsWithB_append _ _

-- ------------------------------------------------------------------
-- Single-rule engine decisions (C1, C4)
-- ------------------------------------------------------------------

/-- An engine built (as the constructors do) from an already parsed rule
list: fresh state, then `compile_patterns`. -/
def engineOfRules (rs : List FilterRule) : FilterEngine :=
  FilterEngine.compile_patterns
    { rules := rs, domainMatcher := none, patternInfo := []
      metrics := PerformanceMetrics.new }

theorem parse_rule_anchor (d : Str) :
    FilterEngine.parse_rule (S "||" ++ d ++ S "^") = .SubdomainPattern d := by
  unfold FilterEngine.parse_rule
  have h1 : startsWithB (S "@@") (S "||" ++ d ++ S "^") = false := rfl
  have h2 : startsWithB (S "||") (S "||" ++ d ++ S "^") = true := rfl
  rw [h1, h2]
  simp only [Bool.false_eq_true, if_false, if_true]
  have h3 : (S "||" ++ d ++ S "^").drop 2 = d ++ ['^'] := rfl
  rw [h3]
  unfold stripSuffixChar
  rw [List.getLast?_concat]
  simp only [beq_self_eq_true, if_true]
  rw [List.dropLast_concat]

theorem decide_single_sub (d url : Str) (t : Nat) (m : PerformanceMetrics) :
    (FilterEngine.should_block ⟨[.SubdomainPattern d], some [d], [⟨d, .Subdomain⟩], m⟩ url t).1
      = if FilterEngine.matches_subdomain url d then
          ⟨true, some (S "Matched subdomain: " ++ d)⟩
        else ⟨false, none⟩ := by
  have hac : FilterEngine.check_aho_corasick_matches
        ⟨[.SubdomainPattern d], some [d], [⟨d, .Subdomain⟩], m⟩ url
      = if (acMatches [d] url).isEmpty then none
        else if FilterEngine.matches_subdomain url d then
          some ⟨true, some (S "Matched subdomain: " ++ d)⟩
        else none := by
    show checkMatchList [⟨d, .Subdomain⟩] url (acMatches [d] url) = _
    exact checkMatchList_single_sub d url _
      (fun mm hmm => acScan_single_fst d url _ _ mm hmm)
  unfold FilterEngine.should_block
  have hexc : findExceptionMatch [.SubdomainPattern d] url = none := rfl
  rw [hexc]
  rw [hac]
  have hpat : findPatternMatch [.SubdomainPattern d] url = none := rfl
  by_cases hsd : FilterEngine.matches_subdomain url d = true
  · have hocc : occursIn d url = true := matches_subdomain_occurs hsd
    have hne : acScan [(0, d)] url (url.length + 2) 0 ≠ [] :=
      occursIn_nil_iff_of_single.1 hocc
    have hem : (acMatches [d] url).isEmpty = false := by
      unfold acMatches
      rw [show enumIdxFrom 0 [d] = [(0, d)] from rfl]
      cases hx : acScan [(0, d)] url (url.length + 2) 0 with
      | nil => exact absurd hx hne
      | cons a b => simp [hx]
    rw [hem, hsd]
    simp [hsd]
  · have hsd' : FilterEngine.matches_subdomain url d = false :=
      Bool.eq_false_iff.mpr hsd
    rw [hsd']
    by_cases hem : (acMatches [d] url).isEmpty = true
    · rw [hem]
      simp only [if_true]
      rw [hpat]
      simp [hsd']
    · rw [Bool.eq_false_iff.mpr hem]
      simp only [Bool.false_eq_true, if_false]
      rw [hpat]

theorem decide_single_dom (lit url : Str) (t : Nat) (m : PerformanceMetrics) :
    (FilterEngine.should_block ⟨[.Domain lit], some [lit], [⟨lit, .Domain⟩], m⟩ url t).1
      = if occursIn lit url then ⟨true, some (S "Matched ad domain: " ++ lit)⟩
        else ⟨false, none⟩ := by
  have hac : FilterEngine.check_aho_corasick_matches
        ⟨[.Domain lit], some [lit], [⟨lit, .Domain⟩], m⟩ url
      = if (acMatches [lit] url).isEmpty then none
        else some ⟨true, some (S "Matched ad domain: " ++ lit)⟩ := by
    show checkMatchList [⟨lit, .Domain⟩] url (acMatches [lit] url) = _
    exact checkMatchList_single_dom lit url _
      (fun mm hmm => acScan_single_fst lit url _ _ mm hmm)
  unfold FilterEngine.should_block
  have hexc : findExceptionMatch [.Domain lit] url = none := rfl
  rw [hexc]
  rw [hac]
  have hpat : findPatternMatch [.Domain lit] url = none := rfl
  by_cases hocc : occursIn lit url = true
  · have hne : acScan [(0, lit)] url (url.length + 2) 0 ≠ [] :=
      occursIn_nil_iff_of_single.1 hocc
    have hem : (acMatches [lit] url).isEmpty = false := by
      unfold acMatches
      rw [show enumIdxFrom 0 [lit] = [(0, lit)] from rfl]
      cases hx : acScan [(0, lit)] url (url.length + 2) 0 with
      | nil => exact absurd hx hne
      | cons a b => simp [hx]
    rw [hem, hocc]
    simp
  · have hocc' : occursIn lit url = false := Bool.eq_false_iff.mpr hocc
    have hnil : acScan [(0, lit)] url (url.length + 2) 0 = [] := by
      by_contra hne
      exact hocc (occursIn_nil_iff_of_single.2 hne)
    have hem : (acMatches [lit] url).isEmpty = true := by
      unfold acMatches
      rw [show enumIdxFrom 0 [lit] = [(0, lit)] from rfl, hnil]
      rfl
    rw [hem, hocc']
    simp only [if_true, Bool.false_eq_true, if_false]
    rw [hpat]

theorem engine_anchor_shape (d : Str) :
    FilterEngine.new_with_patterns [S "||" ++ d ++ S "^"]
      = ⟨[.SubdomainPattern d], some [d], [⟨d, .Subdomain⟩],
         PerformanceMetrics.new.set_filter_count 1⟩ := by
  unfold FilterEngine.new_with_patterns FilterEngine.compile_patterns
  rw [List.map_cons, List.map_nil, parse_rule_anchor]
  rfl

theorem spec_subdomain_eq_code (d url : Str) :
    specSubdomainBlocks d url = FilterEngine.matches_subdomain url d := by
  unfold specSubdomainBlocks specAuthority FilterEngine.matches_subdomain
  cases findSub (S "://") url <;> rfl

/-- **C1**: for every domain `d`, the engine holding the single rule
`||d^` blocks exactly the URLs whose authority component (the text after
`"://"`, delimited by the first `/`) equals `d` or ends with `"." ++ d`,
and the reason cites the subdomain; in particular (instantiated at
`d = "ads.com"`) `https://ads.com/...`, `https://sub.ads.com/...` and
`https://a.b.ads.com/...` are blocked while `https://xads.com/...` and
`https://ads.com.com/...` are not, and an automaton hit inside the path or
inside a longer host label is rejected. -/
theorem c1_subdomain_anchor_exact :
    (∀ (d url : Str) (t : Nat),
      ((FilterEngine.new_with_patterns [S "||" ++ d ++ S "^"]).should_block url t).1
        = if specSubdomainBlocks d url then
            ⟨true, some (S "Matched subdomain: " ++ d)⟩
          else ⟨false, none⟩)
    ∧ ((FilterEngine.new_with_patterns [S "||ads.com^"]).decide_block
        (S "https://ads.com/x")).should_block = true
    ∧ ((FilterEngine.new_with_patterns [S "||ads.com^"]).decide_block
        (S "https://sub.ads.com/x")).should_block = true
    ∧ ((FilterEngine.new_with_patterns [S "||ads.com^"]).decide_block
        (S "https://a.b.ads.com/x")).should_block = true
    ∧ ((FilterEngine.new_with_patterns [S "||ads.com^"]).decide_block
        (S "https://xads.com/x")).should_block = false
    ∧ ((FilterEngine.new_with_patterns [S "||ads.com^"]).decide_block
        (S "https://ads.com.com/x")).should_block = false := by
  refine ⟨?_, by decide, by decide, by decide, by decide, by decide⟩
  intro d url t
  rw [engine_anchor_shape, decide_single_sub, spec_subdomain_eq_code]

theorem splitStar_all_star :
    ∀ p : Str, (∀ c ∈ p, c = '*') → ∀ q ∈ splitOnChar '*' p, q.isEmpty = true := by
  intro p
  induction p with
  | nil =>
    intro _ q hq
    simp [splitOnChar] at hq
    simp [hq]
  | cons a t ih =>
    intro hall q hq
    have ha : a = '*' := hall a (by simp)
    subst ha
    rw [splitOnChar_cons_eq] at hq
    simp only [beq_self_eq_true, if_true, List.mem_cons] at hq
    rcases hq with rfl | hq
    · rfl
    · exact ih (fun c hc => hall c (by simp [hc])) q hq

/-- **C3**: the wildcard matcher agrees, for every pattern and URL, with the
specified fragment algorithm (`specWildcard`, phrased after the spec text);
a pattern consisting only of `*` characters matches every URL; `*/ads/*`
matches the two example URLs; and `/ads/*` matches exactly the strings that
start with `/ads/`. -/
theorem c3_wildcard_matcher :
    (∀ url pattern, FilterEngine.matches_wildcard_pattern url pattern
        = specWildcard url pattern)
    ∧ (∀ url p, (∀ c ∈ p, c = '*') →
        FilterEngine.matches_wildcard_pattern url p = true)
    ∧ FilterEngine.matches_wildcard_pattern (S "https://x.com/ads/1") (S "*/ads/*") = true
    ∧ FilterEngine.matches_wildcard_pattern (S "http://y.com/a/ads/b") (S "*/ads/*") = true
    ∧ (∀ s, FilterEngine.matches_wildcard_pattern s (S "/ads/*") = true
        ↔ startsWithB (S "/ads/") s = true) := by
  refine ⟨matches_wildcard_eq_spec, ?_, by decide, by decide, ?_⟩
  · intro url p hall
    unfold FilterEngine.matches_wildcard_pattern
    cases hsp : splitOnChar '*' p with
    | nil => exact absurd hsp (splitOnChar_ne_nil '*' p)
    | cons h r =>
      show (if (h :: r).isEmpty = true then true
        else wildcardLoop url (p.head? == some '*') (p.getLast? == some '*')
          (h :: r) true 0) = true
      simp only [List.isEmpty_cons, Bool.false_eq_true, if_false]
      refine wildcardLoop_all_empty url _ _ (h :: r) true 0 ?_
      intro q hq
      exact splitStar_all_star p hall q (hsp ▸ hq)
  · intro s
    show (startsWithB (S "/ads/") s && true) = true ↔ startsWithB (S "/ads/") s = true
    rw [Bool.and_true]

-- ------------------------------------------------------------------
-- C4: Domain rules match anywhere in the URL, not only in the host
-- ------------------------------------------------------------------

/-- **C4 counterexample**: with the ruleset `["ads.com"]` the URL
`https://x.org/ads.com` is blocked although its host `x.org` does not
contain the literal — the automaton accepts a `Domain` hit inside the
path, refuting "blocks exactly when the URL's host contains the literal". -/
theorem c4_counterexample :
    ((FilterEngine.new_with_patterns [S "ads.com"]).decide_block
        (S "https://x.org/ads.com")).should_block = true
    ∧ specHostContains (S "ads.com") (S "https://x.org/ads.com") = false :=
  ⟨by decide, by decide⟩

/-- **C4 (amended)**: a `Domain(literal)` rule blocks a URL, with a reason
citing the matched domain, exactly when the literal occurs as a substring
anywhere in the whole URL string (host, path or elsewhere); in particular
the ruleset `["ads.com"]` blocks the host `notads.com`. -/
theorem c4_domain_substring :
    (∀ (lit url : Str) (t : Nat),
      ((engineOfRules [.Domain lit]).should_block url t).1
        = if occursIn lit url then ⟨true, some (S "Matched ad domain: " ++ lit)⟩
          else ⟨false, none⟩)
    ∧ ((FilterEngine.new_with_patterns [S "ads.com"]).decide_block
        (S "https://notads.com/q")).should_block = true := by
  refine ⟨?_, by decide⟩
  intro lit url t
  have hshape : engineOfRules [.Domain lit]
      = ⟨[.Domain lit], some [lit], [⟨lit, .Domain⟩],
         PerformanceMetrics.new.set_filter_count 1⟩ := rfl
  rw [hshape]
  exact decide_single_dom lit url t _

-- ------------------------------------------------------------------
-- C2: exception precedence
-- ------------------------------------------------------------------

theorem findExceptionMatch_isSome {rules : List FilterRule} {url : Str}
    (h : ∃ p, FilterRule.Exception p ∈ rules ∧
      FilterEngine.matches_exception_pattern url p = true) :
    ∃ q, findExceptionMatch rules url = some q ∧ FilterRule.Exception q ∈ rules ∧
      FilterEngine.matches_exception_pattern url q = true := by
  induction rules with
  | nil => obtain ⟨p, hp, _⟩ := h; simp at hp
  | cons r rest ih =>
    obtain ⟨p, hp, hmatch⟩ := h
    cases r with
    | Exception p0 =>
      by_cases h0 : FilterEngine.matches_exception_pattern url p0 = true
      · refine ⟨p0, ?_, by simp, h0⟩
        unfold findExceptionMatch
        rw [if_pos h0]
      · have hprest : FilterRule.Exception p ∈ rest := by
          rcases List.mem_cons.mp hp with heq | hm
          · cases heq; exact absurd hmatch h0
          · exact hm
        obtain ⟨q, hq1, hq2, hq3⟩ := ih ⟨p, hprest, hmatch⟩
        refine ⟨q, ?_, List.mem_cons_of_mem _ hq2, hq3⟩
        unfold findExceptionMatch
        rw [if_neg h0]
        exact hq1
    | Domain d =>
      have hprest : FilterRule.Exception p ∈ rest := by
        rcases List.mem_cons.mp hp with heq | hm
        · exact absurd heq (by simp)
        · exact hm
      obtain ⟨q, hq1, hq2, hq3⟩ := ih ⟨p, hprest, hmatch⟩
      exact ⟨q, hq1, List.mem_cons_of_mem _ hq2, hq3⟩
    | Pattern pp =>
      have hprest : FilterRule.Exception p ∈ rest := by
        rcases List.mem_cons.mp hp with heq | hm
        · exact absurd heq (by simp)
        · exact hm
      obtain ⟨q, hq1, hq2, hq3⟩ := ih ⟨p, hprest, hmatch⟩
      exact ⟨q, hq1, List.mem_cons_of_mem _ hq2, hq3⟩
    | SubdomainPattern sd =>
      have hprest : FilterRule.Exception p ∈ rest := by
        rcases List.mem_cons.mp hp with heq | hm
        · exact absurd heq (by simp)
        · exact hm
      obtain ⟨q, hq1, hq2, hq3⟩ := ih ⟨p, hprest, hmatch⟩
      exact ⟨q, hq1, List.mem_cons_of_mem _ hq2, hq3⟩

/-- **C2**: whenever some `Exception` rule's inner pattern matches the URL,
`should_block` answers "do not block" with a reason citing a matching
exception pattern, for every rule set — blocking rules are never consulted
first; and on the rule set `["||ads.com^", "@@||ads.com/acceptable/*"]`
the URL `https://ads.com/banner` is blocked while
`https://ads.com/acceptable/x` is allowed. -/
theorem c2_exception_precedence :
    (∀ (e : FilterEngine) (url : Str) (t : Nat) (p : Str),
      FilterRule.Exception p ∈ e.rules →
      FilterEngine.matches_exception_pattern url p = true →
      ((e.should_block url t).1.should_block = false ∧
        ∃ q, FilterRule.Exception q ∈ e.rules ∧
          FilterEngine.matches_exception_pattern url q = true ∧
          (e.should_block url t).1.reason
            = some (S "Whitelisted by exception: " ++ q)))
    ∧ ((FilterEngine.new_with_patterns
          [S "||ads.com^", S "@@||ads.com/acceptable/*"]).decide_block
        (S "https://ads.com/banner")).should_block = true
    ∧ ((FilterEngine.new_with_patterns
          [S "||ads.com^", S "@@||ads.com/acceptable/*"]).decide_block
        (S "https://ads.com/acceptable/x")).should_block = false := by
  refine ⟨?_, by decide, by decide⟩
  intro e url t p hmem hmatch
  obtain ⟨q, hq1, hq2, hq3⟩ := findExceptionMatch_isSome ⟨p, hmem, hmatch⟩
  unfold FilterEngine.should_block
  rw [hq1]
  exact ⟨rfl, q, hq2, hq3, rfl⟩

/-- Witness instantiating the universal part of the C2 theorem at the
specification's own example. -/
theorem c2_exception_precedence_witness :
    ((FilterEngine.new_with_patterns
        [S "||ads.com^", S "@@||ads.com/acceptable/*"]).should_block
      (S "https://ads.com/acceptable/x") 0).1.should_block = false :=
  (c2_exception_precedence.1 _ _ 0 (S "||ads.com/acceptable/*")
    (by decide) (by decide)).1

/-- Witness instantiating the all-wildcards clause of the C3 theorem. -/
theorem c3_wildcard_matcher_witness :
    FilterEngine.matches_wildcard_pattern (S "abc") (S "**") = true :=
  c3_wildcard_matcher.2.1 (S "abc") (S "**") (by decide)

-- ------------------------------------------------------------------
-- C6: parse_filter_list
-- ------------------------------------------------------------------

theorem occursIn_of_startsWith {p t : Str} (h : startsWithB p t = true) :
    occursIn p t = true := by
  cases t with
  | nil => unfold occursIn findSub; rw [if_pos h]; rfl
  | cons a b => unfold occursIn findSub; rw [if_pos h]; rfl

theorem head_of_bang3 {t : Str} (h : startsWithB (S "!!!") t = true) :
    (t.head? == some '!') = true := by
  obtain ⟨r, rfl⟩ := (startsWithB_iff _ _).1 h
  rfl

theorem parseFilterLines_eq_filter (lines : List Str) :
    parseFilterLines lines
      = (lines.map trimStr).filter (fun t =>
          !(t.isEmpty || t.head? == some '!' || t.head? == some '[' ||
            occursIn (S "##") t)) := by
  induction lines with
  | nil => rfl
  | cons l rest ih =>
    unfold parseFilterLines
    rw [List.map_cons, List.filter_cons]
    by_cases hA : ((trimStr l).isEmpty || (trimStr l).head? == some '!') = true
    · rw [if_pos hA, ih]
      have hcond : (!((trimStr l).isEmpty || (trimStr l).head? == some '!' ||
          (trimStr l).head? == some '[' || occursIn (S "##") (trimStr l))) = false := by
        simp only [Bool.or_eq_true] at hA
        rcases hA with h | h <;> simp [h]
      rw [hcond]
      simp
    · rw [if_neg hA]
      by_cases hB : ((trimStr l).head? == some '[' ||
          startsWithB (S "!!!") (trimStr l)) = true
      · rw [if_pos hB, ih]
        have hcond : (!((trimStr l).isEmpty || (trimStr l).head? == some '!' ||
            (trimStr l).head? == some '[' || occursIn (S "##") (trimStr l))) = false := by
          simp only [Bool.or_eq_true] at hB
          rcases hB with h | h
          · simp [h]
          · simp [head_of_bang3 h]
        rw [hcond]
        simp
      · rw [if_neg hB]
        by_cases hC : (startsWithB (S "##") (trimStr l) ||
            occursIn (S "##") (trimStr l)) = true
        · rw [if_pos hC, ih]
          have hcond : (!((trimStr l).isEmpty || (trimStr l).head? == some '!' ||
              (trimStr l).head? == some '[' || occursIn (S "##") (trimStr l))) = false := by
            simp only [Bool.or_eq_true] at hC
            rcases hC with h | h
            · simp [occursIn_of_startsWith h]
            · simp [h]
          rw [hcond]
          simp
        · rw [if_neg hC, ih]
          have hA' : ((trimStr l).isEmpty || (trimStr l).head? == some '!') = false :=
            Bool.eq_false_iff.mpr hA
          have hB' : ((trimStr l).head? == some '[' ||
              startsWithB (S "!!!") (trimStr l)) = false := Bool.eq_false_iff.mpr hB
          have hC' : (startsWithB (S "##") (trimStr l) ||
              occursIn (S "##") (trimStr l)) = false := Bool.eq_false_iff.mpr hC
          rw [Bool.or_eq_false_iff] at hA' hB' hC'
          have hcond : (!((trimStr l).isEmpty || (trimStr l).head? == some '!' ||
              (trimStr l).head? == some '[' || occursIn (S "##") (trimStr l))) = true := by
            rw [hA'.1, hA'.2, hB'.1, hC'.2]
            rfl
          rw [hcond]
          simp

/-- **C6 counterexample**: the line `ads#@#banner` contains `"#@#"` but not
`"##"`; the claim says such cosmetic-hiding lines are dropped, but
`parse_filter_list` keeps it. -/
theorem c6_counterexample :
    parse_filter_list (S "ads#@#banner")
      ≠ claimParseFilterList (S "ads#@#banner")
    ∧ parse_filter_list (S "ads#@#banner") = [S "ads#@#banner"] :=
  ⟨by decide, by decide⟩

/-- **C6 (amended)**: for every input, `parse_filter_list` succeeds and
returns exactly the trimmed non-empty lines that are not comments
(`!` prefix), not bracketed metadata (`[` prefix) and do not contain
`"##"`, in input order; a line containing `"#@#"` but not `"##"` is kept. -/
theorem c6_parse_filter_list :
    ∀ content, parse_filter_list content = amendedParseFilterList content := by
  intro content
  unfold parse_filter_list amendedParseFilterList
  exact parseFilterLines_eq_filter (rustLines content)

-- ------------------------------------------------------------------
-- C7: metrics recording
-- ------------------------------------------------------------------

/-- **C7 counterexample**: a call that is short-circuited by an exception
rule returns a decision but leaves the metrics untouched — the total count
does not increase, refuting "every call records its decision". -/
theorem c7_counterexample :
    ((FilterEngine.new_with_patterns [S "@@ads"]).should_block
        (S "https://ads.example/") 7).2
      = (FilterEngine.new_with_patterns [S "@@ads"]).metrics
    ∧ ((FilterEngine.new_with_patterns [S "@@ads"]).should_block
        (S "https://ads.example/") 7).2.totalRequests
      ≠ (FilterEngine.new_with_patterns [S "@@ads"]).metrics.totalRequests + 1
    ∧ ((FilterEngine.new_with_patterns [S "@@ads"]).should_block
        (S "https://ads.example/") 7).1.should_block = false :=
  ⟨by decide, by decide, by decide⟩

/-- **C7 (amended)**: every `should_block` call that is not short-circuited
by an exception rule records exactly one request — the total counter
increases by one (modulo the `u64` word) and exactly one of the blocked /
allowed counters increases by one according to the decision; a call
answered by the exception pass records nothing; consequently the
invariant `total ≡ blocked + allowed (mod 2^64)` is preserved by every
call. -/
theorem c7_metrics_recording :
    ∀ (e : FilterEngine) (url : Str) (t : Nat),
      (findExceptionMatch e.rules url ≠ none →
        (e.should_block url t).2 = e.metrics ∧
        (e.should_block url t).1.should_block = false)
      ∧ (findExceptionMatch e.rules url = none →
          (e.should_block url t).2.totalRequests
            = (e.metrics.totalRequests + 1) % W64
          ∧ ((e.should_block url t).1.should_block = true →
              (e.should_block url t).2.blockedRequests
                = (e.metrics.blockedRequests + 1) % W64
              ∧ (e.should_block url t).2.allowedRequests
                = e.metrics.allowedRequests)
          ∧ ((e.should_block url t).1.should_block = false →
              (e.should_block url t).2.allowedRequests
                = (e.metrics.allowedRequests + 1) % W64
              ∧ (e.should_block url t).2.blockedRequests
                = e.metrics.blockedRequests))
      ∧ (e.metrics.totalRequests
            ≡ e.metrics.blockedRequests + e.metrics.allowedRequests [MOD W64] →
          (e.should_block url t).2.totalRequests
            ≡ (e.should_block url t).2.blockedRequests
              + (e.should_block url t).2.allowedRequests [MOD W64]) := by
  intro e url t
  unfold FilterEngine.should_block
  cases hexc : findExceptionMatch e.rules url with
  | some p =>
    refine ⟨fun _ => ⟨rfl, rfl⟩, fun h => absurd h (by simp), fun h => h⟩
  | none =>
    have hrec : ∀ (b : Bool),
        (e.metrics.record_request b t).totalRequests
          = (e.metrics.totalRequests + 1) % W64
        ∧ (b = true →
            (e.metrics.record_request b t).blockedRequests
              = (e.metrics.blockedRequests + 1) % W64
            ∧ (e.metrics.record_request b t).allowedRequests
              = e.metrics.allowedRequests)
        ∧ (b = false →
            (e.metrics.record_request b t).allowedRequests
              = (e.metrics.allowedRequests + 1) % W64
            ∧ (e.metrics.record_request b t).blockedRequests
              = e.metrics.blockedRequests) := by
      intro b
      cases b <;>
        exact ⟨rfl, fun h => by simp_all [PerformanceMetrics.record_request],
          fun h => by simp_all [PerformanceMetrics.record_request]⟩
    have hsum : ∀ (b : Bool),
        e.metrics.totalRequests
            ≡ e.metrics.blockedRequests + e.metrics.allowedRequests [MOD W64] →
        (e.metrics.record_request b t).totalRequests
          ≡ (e.metrics.record_request b t).blockedRequests
            + (e.metrics.record_request b t).allowedRequests [MOD W64] := by
      intro b hinv
      obtain ⟨h1, h2, h3⟩ := hrec b
      cases b with
      | true =>
        obtain ⟨hb, ha⟩ := h2 rfl
        rw [h1, hb, ha]
        calc (e.metrics.totalRequests + 1) % W64
            ≡ e.metrics.totalRequests + 1 [MOD W64] := Nat.mod_modEq _ _
          _ ≡ e.metrics.blockedRequests + e.metrics.allowedRequests + 1 [MOD W64] :=
              Nat.ModEq.add_right 1 hinv
          _ = (e.metrics.blockedRequests + 1) + e.metrics.allowedRequests := by omega
          _ ≡ (e.metrics.blockedRequests + 1) % W64 + e.metrics.allowedRequests
              [MOD W64] := (Nat.ModEq.add_right _ (Nat.mod_modEq _ _)).symm
      | false =>
        obtain ⟨ha, hb⟩ := h3 rfl
        rw [h1, hb, ha]
        calc (e.metrics.totalRequests + 1) % W64
            ≡ e.metrics.totalRequests + 1 [MOD W64] := Nat.mod_modEq _ _
          _ ≡ e.metrics.blockedRequests + e.metrics.allowedRequests + 1 [MOD W64] :=
              Nat.ModEq.add_right 1 hinv
          _ = e.metrics.blockedRequests + (e.metrics.allowedRequests + 1) := by omega
          _ ≡ e.metrics.blockedRequests + (e.metrics.allowedRequests + 1) % W64
              [MOD W64] := (Nat.ModEq.add_left _ (Nat.mod_modEq _ _)).symm
    cases hac : e.check_aho_corasick_matches url with
    | some decision =>
      refine ⟨fun h => absurd rfl h, fun _ => ?_, fun hinv => ?_⟩
      · obtain ⟨h1, h2, h3⟩ := hrec decision.should_block
        exact ⟨h1, fun hb => h2 (by rw [← hb]), fun hb => h3 (by rw [← hb])⟩
      · exact hsum decision.should_block hinv
    | none =>
      cases hpat : findPatternMatch e.rules url with
      | some p =>
        refine ⟨fun h => absurd rfl h, fun _ => ?_, fun hinv => hsum true hinv⟩
        obtain ⟨h1, h2, h3⟩ := hrec true
        exact ⟨h1, fun _ => h2 rfl, fun hb => by simp at hb⟩
      | none =>
        refine ⟨fun h => absurd rfl h, fun _ => ?_, fun hinv => hsum false hinv⟩
        obtain ⟨h1, h2, h3⟩ := hrec false
        exact ⟨h1, fun hb => by simp at hb, fun _ => h3 rfl⟩

/-- Witness instantiating the C7 theorem: a blocked call on a fresh engine
records total = blocked = 1, allowed = 0. -/
theorem c7_metrics_recording_witness :
    ((FilterEngine.new_with_patterns [S "ads.com"]).should_block
        (S "https://ads.com/") 5).2.totalRequests
      = ((FilterEngine.new_with_patterns [S "ads.com"]).metrics.totalRequests + 1)
          % W64 :=
  ((c7_metrics_recording (FilterEngine.new_with_patterns [S "ads.com"])
      (S "https://ads.com/") 5).2.1 (by decide)).1

-- ------------------------------------------------------------------
-- C8: the two matchers disagree on an option-free rule
-- ------------------------------------------------------------------

/-- A `RuleMatcher` fed rule lines through `RuleParser::parse_rule` and
`RuleMatcher::add_rule` (the construction the source's tests use). -/
def ruleMatcherOf (lines : List Str) : Rules.RuleMatcher :=
  lines.foldl (fun m l =>
    match Rules.parse_rule l with
    | some r => m.add_rule r
    | none => m) Rules.RuleMatcher.new

/-- An unconstrained match context: no page domain, content type outside
every flagged category, first party. -/
def unconstrainedCtx : Rules.MatchOptions := ⟨none, .Other, false⟩

/-- **C8 counterexample**: for the option-free rule `||ads.com^` the two
matchers disagree on `https://notads.com/x` — `RuleMatcher::should_block`
reduces the anchored rule to a bare substring test and blocks, while the
automaton engine's host-boundary check allows. -/
theorem c8_counterexample :
    (ruleMatcherOf [S "||ads.com^"]).should_block
        (S "https://notads.com/x") unconstrainedCtx
      ≠ ((FilterEngine.new_with_patterns [S "||ads.com^"]).decide_block
          (S "https://notads.com/x")).should_block := by decide

/-- **C8 (amended)**: the automaton engine and the option-aware matcher do
not agree on all option-free rules: for `||ads.com^` on
`https://notads.com/x`, `RuleMatcher::should_block` blocks (its
`matches_pattern` is `url.contains("ads.com")`) while
`FilterEngine::should_block` allows (host-boundary check fails). -/
theorem c8_matchers_disagree :
    (ruleMatcherOf [S "||ads.com^"]).should_block
        (S "https://notads.com/x") unconstrainedCtx = true
    ∧ ((FilterEngine.new_with_patterns [S "||ads.com^"]).decide_block
        (S "https://notads.com/x")).should_block = false :=
  ⟨by decide, by decide⟩

-- ------------------------------------------------------------------
-- C9: domain-scope applicability
-- ------------------------------------------------------------------

/-- The concrete scoped rule `ads$domain=example.com` as parsed. -/
def c9rule : Rules.FilterRule :=
  { rule_type := .Block, pattern := S "ads"
    domains := some [S "example.com"]
    options := { domain := some [S "example.com"] } }

/-- **C9 counterexample**: a rule carrying a domain scope still applies
when the context has no page domain — `matches_rule` skips the scope test
entirely, refuting "absence of page_domain means the rule does not
apply". -/
theorem c9_counterexample :
    Rules.parse_rule (S "ads$domain=example.com") = some c9rule
    ∧ c9rule.options.domain = some [S "example.com"]
    ∧ unconstrainedCtx.domain = none
    ∧ Rules.matches_rule c9rule (S "https://ads.com/x") unconstrainedCtx = true :=
  ⟨by decide, by decide, by decide, by decide⟩

/-- **C9 (amended)**: for a rule with a domain-scope list, `matches_rule`
holds exactly when (i) the scope test passes — vacuously when the context
has no page domain, and otherwise when SOME scope entry matches, a
non-negated entry matching when the page domain ends with it and a
negated (`~`) entry matching when the page domain does not end with it —
and (ii) the content-type check passes and (iii) the pattern matches the
URL. -/
theorem c9_domain_scope (rule : Rules.FilterRule) (url : Str)
    (ctx : Rules.MatchOptions) (ds : List Str)
    (h : rule.options.domain = some ds) :
    Rules.matches_rule rule url ctx = true
      ↔ ((match ctx.domain with
          | none => True
          | some pageDomain =>
            ∃ d ∈ ds, (if d.head? == some '~' then !(endsWithB (d.drop 1) pageDomain)
              else endsWithB d pageDomain) = true)
         ∧ Rules.matches_content_type rule ctx = true
         ∧ Rules.matches_pattern rule.pattern url = true) := by
  unfold Rules.matches_rule
  rw [h]
  cases hctx : ctx.domain with
  | none => simp
  | some pd => simp [List.any_eq_true, and_assoc]

/-- Witness applying the C9 theorem at the parsed rule, a context whose
page domain is inside the scope, and a matching URL. -/
theorem c9_domain_scope_witness :
    Rules.matches_rule c9rule (S "https://ads.com/x")
      ⟨some (S "sub.example.com"), .Other, false⟩ = true :=
  (c9_domain_scope c9rule (S "https://ads.com/x")
      ⟨some (S "sub.example.com"), .Other, false⟩ [S "example.com"] rfl).mpr
    ⟨⟨S "example.com", by decide, by decide⟩, by decide, by decide⟩

-- ------------------------------------------------------------------
-- C10: add_rule leaves the compiled automaton untouched
-- ------------------------------------------------------------------

theorem findExceptionMatch_append (l1 l2 : List FilterRule) (url : Str) :
    findExceptionMatch (l1 ++ l2) url
      = match findExceptionMatch l1 url with
        | some p => some p
        | none => findExceptionMatch l2 url := by
  induction l1 with
  | nil =>
    simp only [List.nil_append]
    rfl
  | cons r rest ih =>
    cases r with
    | Exception p =>
      simp only [List.cons_append]
      by_cases hm : FilterEngine.matches_exception_pattern url p = true
      · show (if FilterEngine.matches_exception_pattern url p = true then some p
            else findExceptionMatch (rest ++ l2) url) = _
        rw [if_pos hm]
        show _ = (match (if FilterEngine.matches_exception_pattern url p = true
            then some p else findExceptionMatch rest url) with
          | some q => some q
          | none => findExceptionMatch l2 url)
        rw [if_pos hm]
      · show (if FilterEngine.matches_exception_pattern url p = true then some p
            else findExceptionMatch (rest ++ l2) url) = _
        rw [if_neg hm]
        show _ = (match (if FilterEngine.matches_exception_pattern url p = true
            then some p else findExceptionMatch rest url) with
          | some q => some q
          | none => findExceptionMatch l2 url)
        rw [if_neg hm]
        exact ih
    | Domain d => exact ih
    | Pattern pp => exact ih
    | SubdomainPattern sd => exact ih

theorem findPatternMatch_append (l1 l2 : List FilterRule) (url : Str) :
    findPatternMatch (l1 ++ l2) url
      = match findPatternMatch l1 url with
        | some p => some p
        | none => findPatternMatch l2 url := by
  induction l1 with
  | nil =>
    simp only [List.nil_append]
    rfl
  | cons r rest ih =>
    cases r with
    | Pattern p =>
      simp only [List.cons_append]
      by_cases hm : FilterEngine.matches_wildcard_pattern url p = true
      · show (if FilterEngine.matches_wildcard_pattern url p = true then some p
            else findPatternMatch (rest ++ l2) url) = _
        rw [if_pos hm]
        show _ = (match (if FilterEngine.matches_wildcard_pattern url p = true
            then some p else findPatternMatch rest url) with
          | some q => some q
          | none => findPatternMatch l2 url)
        rw [if_pos hm]
      · show (if FilterEngine.matches_wildcard_pattern url p = true then some p
            else findPatternMatch (rest ++ l2) url) = _
        rw [if_neg hm]
        show _ = (match (if FilterEngine.matches_wildcard_pattern url p = true
            then some p else findPatternMatch rest url) with
          | some q => some q
          | none => findPatternMatch l2 url)
        rw [if_neg hm]
        exact ih
    | Domain d => exact ih
    | Exception pp => exact ih
    | SubdomainPattern sd => exact ih

theorem should_block_congr (e e' : FilterEngine) (url : Str) (t : Nat)
    (h1 : e'.domainMatcher = e.domainMatcher)
    (h2 : e'.patternInfo = e.patternInfo)
    (h3 : e'.metrics = e.metrics)
    (h4 : findExceptionMatch e'.rules url = findExceptionMatch e.rules url)
    (h5 : findPatternMatch e'.rules url = findPatternMatch e.rules url) :
    e'.should_block url t = e.should_block url t := by
  unfold FilterEngine.should_block FilterEngine.check_aho_corasick_matches
  rw [h1, h2, h3, h4, h5]

/-- **C10**: `add_rule` appends the parsed rule but leaves the compiled
automaton, the `PatternInfo` side table and the metrics untouched;
consequently an added rule that classifies as `Domain` or
`SubdomainPattern` changes no `should_block` outcome until the patterns
are recompiled, whereas an added `Exception` rule whose pattern matches
forces "allow" on the very next call and an added `Pattern` rule that
matches is consulted by the next call once nothing earlier decides. -/
theorem c10_add_rule_frame :
    (∀ (e : FilterEngine) (r : Str),
      (e.add_rule r).domainMatcher = e.domainMatcher
      ∧ (e.add_rule r).patternInfo = e.patternInfo
      ∧ (e.add_rule r).metrics = e.metrics
      ∧ (e.add_rule r).rules = e.rules ++ [FilterEngine.parse_rule r])
    ∧ (∀ (e : FilterEngine) (r url : Str) (t : Nat) (d : Str),
        (FilterEngine.parse_rule r = .Domain d ∨
         FilterEngine.parse_rule r = .SubdomainPattern d) →
        (e.add_rule r).should_block url t = e.should_block url t)
    ∧ (∀ (e : FilterEngine) (r p url : Str) (t : Nat),
        FilterEngine.parse_rule r = .Exception p →
        FilterEngine.matches_exception_pattern url p = true →
        ((e.add_rule r).should_block url t).1.should_block = false)
    ∧ (∀ (e : FilterEngine) (r p url : Str) (t : Nat),
        FilterEngine.parse_rule r = .Pattern p →
        findExceptionMatch e.rules url = none →
        e.check_aho_corasick_matches url = none →
        findPatternMatch e.rules url = none →
        FilterEngine.matches_wildcard_pattern url p = true →
        ((e.add_rule r).should_block url t).1
          = ⟨true, some (S "Matched pattern: " ++ p)⟩) := by
  refine ⟨fun e r => ⟨rfl, rfl, rfl, rfl⟩, ?_, ?_, ?_⟩
  · intro e r url t d hparse
    apply should_block_congr e (e.add_rule r) url t rfl rfl rfl
    · rw [show (e.add_rule r).rules = e.rules ++ [FilterEngine.parse_rule r] from rfl,
        findExceptionMatch_append]
      rcases hparse with hp | hp <;> rw [hp] <;>
        cases findExceptionMatch e.rules url <;> rfl
    · rw [show (e.add_rule r).rules = e.rules ++ [FilterEngine.parse_rule r] from rfl,
        findPatternMatch_append]
      rcases hparse with hp | hp <;> rw [hp] <;>
        cases findPatternMatch e.rules url <;> rfl
  · intro e r p url t hparse hmatch
    unfold FilterEngine.should_block
    obtain ⟨q, hq⟩ : ∃ q, findExceptionMatch (e.add_rule r).rules url = some q := by
      rw [show (e.add_rule r).rules = e.rules ++ [FilterEngine.parse_rule r] from rfl,
        hparse, findExceptionMatch_append]
      cases hx : findExceptionMatch e.rules url with
      | some q => exact ⟨q, rfl⟩
      | none =>
        refine ⟨p, ?_⟩
        show (if FilterEngine.matches_exception_pattern url p = true then some p
          else findExceptionMatch [] url) = some p
        rw [if_pos hmatch]
    rw [hq]
  · intro e r p url t hparse hexc hac hpat hw
    unfold FilterEngine.should_block
    have h4 : findExceptionMatch (e.add_rule r).rules url = none := by
      rw [show (e.add_rule r).rules = e.rules ++ [FilterEngine.parse_rule r] from rfl,
        hparse, findExceptionMatch_append, hexc]
      rfl
    have hac' : (e.add_rule r).check_aho_corasick_matches url = none := hac
    have h5 : findPatternMatch (e.add_rule r).rules url = some p := by
      rw [show (e.add_rule r).rules = e.rules ++ [FilterEngine.parse_rule r] from rfl,
        hparse, findPatternMatch_append, hpat]
      show (if FilterEngine.matches_wildcard_pattern url p = true then some p
        else findPatternMatch [] url) = some p
      rw [if_pos hw]
    rw [h4, hac', h5]

/-- Witness instantiating the C10 theorem: a freshly added `Domain` rule is
invisible to `should_block` before recompilation. -/
theorem c10_add_rule_frame_witness :
    ((FilterEngine.new_with_patterns []).add_rule (S "newads.com")).should_block
        (S "https://newads.com/") 0
      = (FilterEngine.new_with_patterns []).should_block (S "https://newads.com/") 0 :=
  c10_add_rule_frame.2.1 _ _ _ 0 (S "newads.com") (Or.inl (by decide))

-- ------------------------------------------------------------------
-- C5: the checked pipeline never panics
-- ------------------------------------------------------------------

theorem sliceFrom_of_le {s : Str} {i : Nat} (h : i ≤ s.length) :
    sliceFrom s i = some (s.drop i) := by
  unfold sliceFrom
  rw [if_pos h]

theorem wildcardLoopC_eq (url : Str) (ss es : Bool) :
    ∀ (parts : List Str) (b : Bool) (cur : Nat), cur ≤ url.length →
      wildcardLoopC url ss es parts b cur
        = some (wildcardLoop url ss es parts b cur) := by
  intro parts
  induction parts with
  | nil => intro b cur _; rfl
  | cons p rest ih =>
    intro b cur hcur
    unfold wildcardLoopC wildcardLoop
    by_cases hp : p.isEmpty = true
    · rw [if_pos hp, if_pos hp]
      exact ih _ _ hcur
    · rw [if_neg hp, if_neg hp]
      by_cases hfirst : (b && !ss) = true
      · rw [if_pos hfirst, if_pos hfirst]
        by_cases hsw : startsWithB p url = true
        · rw [if_pos hsw, hsw]
          simp only [Bool.true_and]
          exact ih _ _ (startsWithB_length hsw)
        · rw [if_neg hsw, Bool.eq_false_iff.mpr hsw]
          simp
      · rw [if_neg hfirst, if_neg hfirst]
        by_cases hlast : (rest.isEmpty && !es) = true
        · rw [if_pos hlast, if_pos hlast, sliceFrom_of_le hcur]
          by_cases hew : endsWithB p (url.drop cur) = true
          · show (if endsWithB p (url.drop cur) = true
                then wildcardLoopC url ss es rest false cur else some false) = _
            rw [if_pos hew, hew]
            simp only [Bool.true_and]
            exact ih _ _ hcur
          · show (if endsWithB p (url.drop cur) = true
                then wildcardLoopC url ss es rest false cur else some false) = _
            rw [if_neg hew, Bool.eq_false_iff.mpr hew]
            simp
        · rw [if_neg hlast, if_neg hlast, sliceFrom_of_le hcur]
          show (match findSub p (url.drop cur) with
              | some pos => wildcardLoopC url ss es rest false (cur + pos + p.length)
              | none => some false)
            = some (match findSub p (url.drop cur) with
              | some pos => wildcardLoop url ss es rest false (cur + pos + p.length)
              | none => false)
          cases hfind : findSub p (url.drop cur) with
          | some pos =>
            show wildcardLoopC url ss es rest false (cur + pos + p.length)
              = some (wildcardLoop url ss es rest false (cur + pos + p.length))
            have hb := (findSub_eq_some hfind).2
            have hlen : (url.drop cur).length = url.length - cur := by simp
            exact ih _ _ (by omega)
          | none => rfl

theorem matchesWildcardC_eq (url pattern : Str) :
    matchesWildcardC url pattern
      = some (FilterEngine.matches_wildcard_pattern url pattern) := by
  unfold matchesWildcardC FilterEngine.matches_wildcard_pattern
  cases hsp : splitOnChar '*' pattern with
  | nil => exact absurd hsp (splitOnChar_ne_nil '*' pattern)
  | cons h r =>
    simp only [hsp, List.isEmpty_cons, Bool.false_eq_true, if_false]
    exact wildcardLoopC_eq url _ _ (h :: r) true 0 (Nat.zero_le _)

theorem matchesSubdomainC_eq (url domain : Str) :
    matchesSubdomainC url domain
      = some (FilterEngine.matches_subdomain url domain) := by
  unfold matchesSubdomainC FilterEngine.matches_subdomain
  cases hfind : findSub (S "://") url with
  | none => rfl
  | some st =>
    have hb := (findSub_eq_some hfind).2
    have h3 : (S "://").length = 3 := rfl
    have hle : st + 3 ≤ url.length := by rw [h3] at hb; omega
    simp only [sliceFrom_of_le hle, Option.map_some']

theorem matchesSubdomainPatternC_eq (url pwp : Str) :
    matchesSubdomainPatternC url pwp
      = some (FilterEngine.matches_subdomain_pattern url pwp) := by
  unfold matchesSubdomainPatternC FilterEngine.matches_subdomain_pattern
  cases hstrip : stripSuffixChar '^' pwp with
  | some domain => exact matchesSubdomainC_eq url domain
  | none =>
    cases hslash : findCharIdx '/' pwp with
    | none => exact matchesSubdomainC_eq url pwp
    | some slashPos =>
      have hsp : slashPos ≤ pwp.length := by
        have := (findCharIdx_eq_some hslash).1
        omega
      simp only [sliceFrom_of_le hsp, Option.some_bind, matchesSubdomainC_eq,
        Option.some_bind]
      by_cases hsd : FilterEngine.matches_subdomain url (pwp.take slashPos) = true
      · rw [if_pos hsd, if_pos hsd]
        cases hfind : findSub (pwp.take slashPos) url with
        | none => rfl
        | some pos =>
          have hb := (findSub_eq_some hfind).2
          have hle : pos + (pwp.take slashPos).length ≤ url.length := hb
          simp only [sliceFrom_of_le (by omega : pos + (pwp.take slashPos).length ≤ url.length),
            Option.some_bind]
          by_cases hstar : (pwp.drop slashPos).any (· == '*') = true
          · rw [if_pos hstar, if_pos hstar]
            exact matchesWildcardC_eq _ _
          · rw [if_neg hstar, if_neg hstar]
      · rw [if_neg hsd, if_neg hsd]

theorem matchesDomainPathC_eq (url pattern : Str) (slashPos : Nat)
    (h : slashPos ≤ pattern.length) :
    matchesDomainPathC url pattern slashPos
      = some (FilterEngine.matches_domain_path_pattern url pattern slashPos) := by
  unfold matchesDomainPathC FilterEngine.matches_domain_path_pattern
  simp only [sliceFrom_of_le h, Option.some_bind]
  by_cases hocc : occursIn (pattern.take slashPos) url = true
  · rw [if_pos hocc, if_pos hocc]
    cases hfind : findSub (pattern.take slashPos) url with
    | none => rfl
    | some pos =>
      have hb := (findSub_eq_some hfind).2
      simp only [sliceFrom_of_le (by omega : pos + (pattern.take slashPos).length ≤ url.length),
        Option.map_some']
  · rw [if_neg hocc, if_neg hocc]

theorem matchesExceptionC_eq (url pattern : Str) :
    matchesExceptionC url pattern
      = some (FilterEngine.matches_exception_pattern url pattern) := by
  unfold matchesExceptionC FilterEngine.matches_exception_pattern
  by_cases hpre : startsWithB (S "||") pattern = true
  · rw [if_pos hpre, if_pos hpre]
    exact matchesSubdomainPatternC_eq url (pattern.drop 2)
  · rw [if_neg hpre, if_neg hpre]
    by_cases hstar : pattern.any (· == '*') = true
    · rw [if_pos hstar, if_pos hstar]
      exact matchesWildcardC_eq url pattern
    · rw [if_neg hstar, if_neg hstar]
      cases hslash : findCharIdx '/' pattern with
      | none => rfl
      | some slashPos =>
        exact matchesDomainPathC_eq url pattern slashPos
          (by have := (findCharIdx_eq_some hslash).1; omega)

theorem findExceptionMatchC_eq (rules : List FilterRule) (url : Str) :
    findExceptionMatchC rules url = some (findExceptionMatch rules url) := by
  induction rules with
  | nil => rfl
  | cons r rest ih =>
    cases r with
    | Exception p =>
      unfold findExceptionMatchC findExceptionMatch
      rw [matchesExceptionC_eq, Option.some_bind]
      by_cases hm : FilterEngine.matches_exception_pattern url p = true
      · rw [hm]
        rfl
      · rw [Bool.eq_false_iff.mpr hm]
        exact ih
    | Domain d => exact ih
    | Pattern pp => exact ih
    | SubdomainPattern sd => exact ih

theorem findPatternMatchC_eq (rules : List FilterRule) (url : Str) :
    findPatternMatchC rules url = some (findPatternMatch rules url) := by
  induction rules with
  | nil => rfl
  | cons r rest ih =>
    cases r with
    | Pattern p =>
      unfold findPatternMatchC findPatternMatch
      rw [matchesWildcardC_eq, Option.some_bind]
      by_cases hm : FilterEngine.matches_wildcard_pattern url p = true
      · rw [hm]
        rfl
      · rw [Bool.eq_false_iff.mpr hm]
        exact ih
    | Domain d => exact ih
    | Exception pp => exact ih
    | SubdomainPattern sd => exact ih

theorem get?_some_getD {α : Type} (l : List α) (i : Nat) (d : α) (h : i < l.length) :
    l.get? i = some (l.getD i d) := by
  induction l generalizing i with
  | nil => simp at h
  | cons a t ih =>
    cases i with
    | zero => rfl
    | succ j =>
      simp only [List.length_cons] at h
      exact ih j (by omega)

theorem checkMatchListC_eq (pinfo : List PatternInfo) (url : Str) :
    ∀ (ms : List (Nat × Nat)), (∀ m ∈ ms, m.1 < pinfo.length) →
      checkMatchListC pinfo url ms = some (checkMatchList pinfo url ms) := by
  intro ms
  induction ms with
  | nil => intro _; rfl
  | cons m rest ih =>
    intro hbound
    obtain ⟨i, pos⟩ := m
    have hi : i < pinfo.length := hbound (i, pos) (by simp)
    have hRHS : checkMatchList pinfo url ((i, pos) :: rest)
        = (match (pinfo.getD i ⟨[], .Domain⟩).rule_type with
           | .Subdomain =>
             if FilterEngine.matches_subdomain url
                 (pinfo.getD i ⟨[], .Domain⟩).pattern then
               some ⟨true, some (S "Matched subdomain: "
                 ++ (pinfo.getD i ⟨[], .Domain⟩).pattern)⟩
             else checkMatchList pinfo url rest
           | .Domain =>
             some ⟨true, some (S "Matched ad domain: "
               ++ (pinfo.getD i ⟨[], .Domain⟩).pattern)⟩) := rfl
    have hLHS : checkMatchListC pinfo url ((i, pos) :: rest)
        = (pinfo.get? i).bind (fun info =>
            match info.rule_type with
            | .Subdomain =>
              (matchesSubdomainC url info.pattern).bind (fun hit =>
                if hit then
                  some (some ⟨true, some (S "Matched subdomain: " ++ info.pattern)⟩)
                else checkMatchListC pinfo url rest)
            | .Domain =>
              some (some ⟨true, some (S "Matched ad domain: " ++ info.pattern)⟩)) := rfl
    rw [hLHS, hRHS, get?_some_getD pinfo i ⟨[], .Domain⟩ hi, Option.some_bind]
    cases hrt : (pinfo.getD i ⟨[], .Domain⟩).rule_type with
    | Subdomain =>
      rw [matchesSubdomainC_eq, Option.some_bind]
      by_cases hsd : FilterEngine.matches_subdomain url
          (pinfo.getD i ⟨[], .Domain⟩).pattern = true
      · rw [hsd]
        rfl
      · rw [Bool.eq_false_iff.mpr hsd]
        exact ih (fun mm hmm => hbound mm (by simp [hmm]))
    | Domain => rfl

theorem acFindAt_mem {pats : List (Nat × Str)} {tail : Str} {ip : Nat × Str}
    (h : acFindAt pats tail = some ip) : ip ∈ pats := by
  induction pats with
  | nil => simp [acFindAt] at h
  | cons q rest ih =>
    unfold acFindAt at h
    by_cases hsw : startsWithB q.2 tail = true
    · rw [if_pos hsw] at h
      cases h
      simp
    · rw [if_neg hsw] at h
      exact List.mem_cons_of_mem _ (ih h)

theorem acScan_mem {pats : List (Nat × Str)} {url : Str} :
    ∀ {fuel pos : Nat} {m : Nat × Nat}, m ∈ acScan pats url fuel pos →
      ∃ p, (m.1, p) ∈ pats := by
  intro fuel
  induction fuel with
  | zero => intro pos m hm; simp [acScan] at hm
  | succ n ih =>
    intro pos m hm
    unfold acScan at hm
    by_cases hpos : pos ≤ url.length
    · rw [if_pos hpos] at hm
      cases hfa : acFindAt pats (url.drop pos) with
      | none =>
        rw [hfa] at hm
        exact ih hm
      | some ip =>
        obtain ⟨i, p⟩ := ip
        rw [hfa] at hm
        simp only [List.mem_cons] at hm
        rcases hm with rfl | hm
        · exact ⟨p, acFindAt_mem hfa⟩
        · exact ih hm
    · rw [if_neg hpos] at hm
      simp at hm

theorem enumIdxFrom_fst_lt {l : List Str} :
    ∀ {n i : Nat} {p : Str}, (i, p) ∈ enumIdxFrom n l → i < n + l.length := by
  induction l with
  | nil => intro n i p h; simp [enumIdxFrom] at h
  | cons a t ih =>
    intro n i p h
    unfold enumIdxFrom at h
    simp only [List.mem_cons] at h
    rcases h with heq | h
    · injection heq with h1 h2
      subst h1
      simp only [List.length_cons]
      omega
    · have := ih h
      simp only [List.length_cons]
      omega

/-- The side-table alignment a compiled engine maintains: the automaton was
built from at most as many patterns as the `PatternInfo` table has rows. -/
def EngineWf (e : FilterEngine) : Prop :=
  ∀ pats, e.domainMatcher = some pats → pats.length ≤ e.patternInfo.length

theorem checkAhoC_eq (e : FilterEngine) (url : Str) (hwf : EngineWf e) :
    checkAhoC e url = some (e.check_aho_corasick_matches url) := by
  unfold checkAhoC FilterEngine.check_aho_corasick_matches
  cases hdm : e.domainMatcher with
  | none => rfl
  | some pats =>
    apply checkMatchListC_eq
    intro m hm
    obtain ⟨p, hp⟩ := acScan_mem hm
    have h1 : m.1 < 0 + pats.length := enumIdxFrom_fst_lt hp
    have h2 : pats.length ≤ e.patternInfo.length := hwf pats hdm
    omega

theorem shouldBlockC_eq (e : FilterEngine) (url : Str) (t : Nat)
    (hwf : EngineWf e) :
    shouldBlockC e url t = some (e.should_block url t) := by
  unfold shouldBlockC FilterEngine.should_block
  rw [findExceptionMatchC_eq, Option.some_bind]
  cases hexc : findExceptionMatch e.rules url with
  | some p => rfl
  | none =>
    rw [checkAhoC_eq e url hwf, Option.some_bind]
    cases hac : e.check_aho_corasick_matches url with
    | some decision => rfl
    | none =>
      rw [findPatternMatchC_eq, Option.some_bind]
      cases hpat : findPatternMatch e.rules url with
      | some p => rfl
      | none => rfl

theorem engineWf_new (ps : List Str) : EngineWf (FilterEngine.new_with_patterns ps) := by
  intro pats h
  have h' : (if ((patternInfoOf (ps.map FilterEngine.parse_rule)).map
        (·.pattern)).isEmpty = true then (none : Option (List Str))
      else some ((patternInfoOf (ps.map FilterEngine.parse_rule)).map (·.pattern)))
      = some pats := h
  by_cases he : ((patternInfoOf (ps.map FilterEngine.parse_rule)).map
      (·.pattern)).isEmpty = true
  · rw [if_pos he] at h'
    exact absurd h' (by simp)
  · rw [if_neg he] at h'
    have := Option.some.inj h'
    show pats.length ≤ (patternInfoOf (ps.map FilterEngine.parse_rule)).length
    rw [← this]
    simp

/-- **C5**: `should_block` is total and memory safe for every compiled
engine and every URL string: the checked pipeline — in which every
`url[i..]` / `pattern[i..]` slice of the wildcard, subdomain and
exception matchers and every `pattern_info[id]` side-table access is a
guarded operation that fails instead of panicking — always succeeds and
returns exactly the decision of the total model, and every engine built
by the constructors satisfies the side-table alignment this needs. -/
theorem c5_should_block_total :
    (∀ (e : FilterEngine) (url : Str) (t : Nat), EngineWf e →
      shouldBlockC e url t = some (e.should_block url t))
    ∧ (∀ ps, EngineWf (FilterEngine.new_with_patterns ps)) :=
  ⟨fun e url t hwf => shouldBlockC_eq e url t hwf, engineWf_new⟩

/-- Witness applying the C5 theorem to a concrete engine and an arbitrary
string that is not a URL at all. -/
theorem c5_should_block_total_witness :
    shouldBlockC (FilterEngine.new_with_patterns [S "||ads.com^", S "*/ads/*"])
        (S "no scheme at all") 3
      = some ((FilterEngine.new_with_patterns [S "||ads.com^", S "*/ads/*"]).should_block
          (S "no scheme at all") 3) :=
  c5_should_block_total.1 _ _ 3
    (c5_should_block_total.2 [S "||ads.com^", S "*/ads/*"])
